import Mathlib

/-!
# Query evaluation of the concat metadata store (mc/query/eval.go)

A shallow embedding of the query evaluator: the namespace filter, the criteria
compiler, the three result sets (set, list, function over set) and the driver
`EvalQuery`, followed by theorems about them.

Conventions of the embedding.

* A Go `string` is a Lean `String` (a valid UTF-8 byte string). Operations that
  Go performs on bytes (indexing, slicing, `strings.HasPrefix`) are performed on
  the UTF-8 encoding, `goBytes`. The peer handles of mc/util.go, which are only
  indexed and sliced, are kept as byte lists throughout.
* `int64` and `int` values are `Int`; the evaluator only compares them.
* A Go function returning `(T, error)` is an `Except QueryEvalError T`; a run-time
  panic (index out of range, failed type assertion) is `none` / `Outcome.panic`.
* The registries (`map[string]...` literals) are association lists searched with
  `List.lookup`.
* The iteration order of a Go map is unspecified; it is the parameter `MapRange`.
-/

namespace Concat

/-! ## Data model -/

/-- Modelled from the spec: the record `pb.Statement` (generated protobuf code that is
not part of the source tree): identifier, namespace, publisher, body (a payload that
the evaluator never inspects, compared by identity), timestamp and reference list.
`addr` is the address of the record: the evaluator receives `*pb.Statement`, and the
selector `*` yields the pointer itself. -/
structure Statement where
  addr : Nat
  Id : String
  Publisher : String
  Namespace : String
  Body : Nat
  Timestamp : Int
  Refs : List String
  deriving DecidableEq, Repr

/-- Modelled from the spec: `StatementRefs`, the accessor (declared outside the source
tree) that extracts the well-known identifiers a statement refers to. -/
def StatementRefs (stmt : Statement) : List String :=
  stmt.Refs

/-- Modelled from the spec: `StatementSource` (declared outside the source tree); the
source of a statement is its publisher, only simple statements being supported. -/
def StatementSource (stmt : Statement) : String :=
  stmt.Publisher

/-- The dynamic values (`interface{}`) that the simple selectors yield. All of them are
comparable in Go, so they can key a `map[interface{}]bool`. Go distinguishes the
dynamic types `int64` and `int`. -/
inductive Scalar where
  | stmt (s : Statement)
  | body (b : Nat)
  | str (s : String)
  | int64 (i : Int)
  | int (i : Int)
  deriving DecidableEq, Repr

/-- An element of the `[]interface{}` that `EvalQuery` returns: a scalar, or the
`map[string]interface{}` built by a compound selector (keys in insertion order). -/
inductive Value where
  | scalar (v : Scalar)
  | obj (fields : List (String × Scalar))
  deriving DecidableEq, Repr

/-- The `type QueryEvalError string`. -/
abbrev QueryEvalError := String

/-- Modelled from the spec: the criteria nodes of the query AST (declared in the parser,
outside the source tree). `other` stands for a dynamic type that `makeCriteriaFilterF`
does not recognise (`typ` is what `%T` prints, `<nil>` for a nil child). -/
inductive QueryCriteria where
  | ValueCriteria (op sel val : String)
  | RangeCriteria (op sel : String) (val : Int)
  | IndexCriteria (sel val : String)
  | CompoundCriteria (op : String) (left right : QueryCriteria)
  | NegatedCriteria (e : QueryCriteria)
  | other (typ : String)
  deriving DecidableEq, Repr

/-- The `type SimpleSelector string`. -/
abbrev SimpleSelector := String

/-- Modelled from the spec: the selector nodes of the query AST (declared in the parser,
outside the source tree). `other` stands for a dynamic type that `makeResultSet` does
not recognise. -/
inductive QuerySelector where
  | SimpleSelector (sel : SimpleSelector)
  | CompoundSelector (sels : List SimpleSelector)
  | FunctionSelector (op : String) (sel : SimpleSelector)
  | other (typ : String)
  deriving DecidableEq, Repr

/-- Modelled from the spec: the parsed query (declared in the parser, outside the source
tree). `criteria = none` is the nil criteria; `limit` is a Go `int`. -/
structure Query where
  namespace_ : String
  selector : QuerySelector
  criteria : Option QueryCriteria
  limit : Int
  deriving DecidableEq, Repr

/-- What a call of `EvalQuery` does: return a result, return an error, or panic. -/
inductive Outcome (α : Type) where
  | ok (val : α)
  | error (err : QueryEvalError)
  | panic
  deriving DecidableEq, Repr

/-- The order in which `range` visits the keys of a Go map: some rearrangement of the
keys (given here in insertion order), not specified by the language. -/
structure MapRange where
  order : List Scalar → List Scalar
  perm : ∀ keys, (order keys).Perm keys

/-- The iteration that visits the keys in insertion order. -/
def MapRange.insertion : MapRange :=
  ⟨fun keys => keys, fun keys => List.Perm.refl keys⟩

/-- The iteration that visits the keys in reverse insertion order. -/
def MapRange.reversed : MapRange :=
  ⟨fun keys => keys.reverse, fun keys => List.reverse_perm keys⟩

/-! ## Criteria filters -/

abbrev StatementFilter := Statement → Bool
abbrev ValueCriteriaFilterSelect := Statement → String
abbrev ValueCriteriaFilterCompare := String → String → Bool
abbrev RangeCriteriaFilterSelect := Statement → Int
abbrev RangeCriteriaFilterCompare := Int → Int → Bool
abbrev IndexCriteriaFilterSelect := Statement → List String
abbrev CompoundCriteriaFilter := Statement → StatementFilter → StatementFilter → Bool

def idCriteriaFilter (stmt : Statement) : String :=
  stmt.Id

def publisherCriteriaFilter (stmt : Statement) : String :=
  stmt.Publisher

def sourceCriteriaFilter (stmt : Statement) : String :=
  stmt.Publisher

def valueCriteriaFilterSelect : List (String × ValueCriteriaFilterSelect) :=
  [("id", idCriteriaFilter),
   ("publisher", publisherCriteriaFilter),
   ("source", sourceCriteriaFilter)]

def valueCriteriaEQ (a b : String) : Bool :=
  a == b

def valueCriteriaNE (a b : String) : Bool :=
  a != b

def valueCriteriaFilterCompare : List (String × ValueCriteriaFilterCompare) :=
  [("=", valueCriteriaEQ),
   ("!=", valueCriteriaNE)]

def rangeFilterLTEQ (a b : Int) : Bool :=
  decide (a ≤ b)

def rangeFilterLT (a b : Int) : Bool :=
  decide (a < b)

def rangeFilterEQ (a b : Int) : Bool :=
  a == b

def rangeFilterNE (a b : Int) : Bool :=
  a != b

def rangeFilterGTEQ (a b : Int) : Bool :=
  decide (a ≥ b)

def rangeFilterGT (a b : Int) : Bool :=
  decide (a > b)

def rangeCriteriaFilterCompare : List (String × RangeCriteriaFilterCompare) :=
  [("<=", rangeFilterLTEQ),
   ("<", rangeFilterLT),
   ("=", rangeFilterEQ),
   ("!=", rangeFilterNE),
   (">=", rangeFilterGTEQ),
   (">", rangeFilterGT)]

def timestampCriteriaFilter (stmt : Statement) : Int :=
  stmt.Timestamp

def counterCriteriaFilter (_stmt : Statement) : Int :=
  0

def rangeCriteriaFilterSelect : List (String × RangeCriteriaFilterSelect) :=
  [("timestamp", timestampCriteriaFilter),
   ("counter", counterCriteriaFilter)]

def wkiCriteriaFilter (stmt : Statement) : List String :=
  StatementRefs stmt

def indexCriteriaContains : List String → String → Bool
  | [], _ => false
  | key :: keys, val => if key == val then true else indexCriteriaContains keys val

def indexCriteriaFilterSelect : List (String × IndexCriteriaFilterSelect) :=
  [("wki", wkiCriteriaFilter)]

def compoundCriteriaAND (stmt : Statement) (left right : StatementFilter) : Bool :=
  left stmt && right stmt

def compoundCriteriaOR (stmt : Statement) (left right : StatementFilter) : Bool :=
  left stmt || right stmt

def compoundCriteriaFilters : List (String × CompoundCriteriaFilter) :=
  [("AND", compoundCriteriaAND),
   ("OR", compoundCriteriaOR)]

def emptyFilter (_stmt : Statement) : Bool :=
  true

/-- The bytes of a Go string. -/
def goBytes (s : String) : List UInt8 :=
  s.toUTF8.data.toList

/-- The namespace filter; `none` is the run-time panic of an index or a slice bound out
of range. The byte `42` is `'*'`. -/
def makeNamespaceFilter (query : Query) : Option StatementFilter :=
  let ns := query.namespace_
  if ns = "*" then
    some emptyFilter
  else
    match (goBytes ns).getLast? with
    | none => none
    | some c =>
      if c = 42 then
        if (goBytes ns).length < 2 then
          none
        else
          let pfx := (goBytes ns).take ((goBytes ns).length - 2)
          some (fun stmt => pfx.isPrefixOf (goBytes stmt.Namespace))
      else
        some (fun stmt => decide (stmt.Namespace = ns))

def makeCriteriaFilterF : QueryCriteria → Except QueryEvalError StatementFilter
  | .ValueCriteria op sel val =>
    match valueCriteriaFilterSelect.lookup sel with
    | none => .error ("Unexpected criteria selector: " ++ sel)
    | some getf =>
      match valueCriteriaFilterCompare.lookup op with
      | none => .error ("Unexpected criteria operator: " ++ op)
      | some cmpf => .ok (fun stmt => cmpf (getf stmt) val)
  | .RangeCriteria op sel val =>
    match rangeCriteriaFilterSelect.lookup sel with
    | none => .error ("Unexpected criteria selector: " ++ sel)
    | some getf =>
      match rangeCriteriaFilterCompare.lookup op with
      | none => .error ("Unexpected criteria range op: " ++ op)
      | some filter => .ok (fun stmt => filter (getf stmt) val)
  | .IndexCriteria sel val =>
    match indexCriteriaFilterSelect.lookup sel with
    | none => .error ("Unexpected index selector: " ++ sel)
    | some getf => .ok (fun stmt => indexCriteriaContains (getf stmt) val)
  | .CompoundCriteria op left right =>
    match compoundCriteriaFilters.lookup op with
    | none => .error ("Unexpected criteria combinator: " ++ op)
    | some filter =>
      match makeCriteriaFilterF left with
      | .error err => .error err
      | .ok left =>
        match makeCriteriaFilterF right with
        | .error err => .error err
        | .ok right => .ok (fun stmt => filter stmt left right)
  | .NegatedCriteria e =>
    match makeCriteriaFilterF e with
    | .error err => .error err
    | .ok filter => .ok (fun stmt => !filter stmt)
  | .other typ => .error ("Unexpected criteria type: " ++ typ)

def makeCriteriaFilter (query : Query) : Except QueryEvalError StatementFilter :=
  match query.criteria with
  | none => .ok emptyFilter
  | some c => makeCriteriaFilterF c

/-! ## Selectors -/

abbrev StatementSelector := Statement → Scalar

def simpleSelectorAll (stmt : Statement) : Scalar :=
  .stmt stmt

def simpleSelectorBody (stmt : Statement) : Scalar :=
  .body stmt.Body

def simpleSelectorId (stmt : Statement) : Scalar :=
  .str stmt.Id

def simpleSelectorPublisher (stmt : Statement) : Scalar :=
  .str stmt.Publisher

def simpleSelectorNamespace (stmt : Statement) : Scalar :=
  .str stmt.Namespace

def simpleSelectorSource (stmt : Statement) : Scalar :=
  .str (StatementSource stmt)

def simpleSelectorTimestamp (stmt : Statement) : Scalar :=
  .int64 stmt.Timestamp

/-- The Go function returns the untyped constant `0` as an `interface{}`, whose dynamic
type is `int`. -/
def simpleSelectorCounter (_stmt : Statement) : Scalar :=
  .int 0

def simpleSelectors : List (String × StatementSelector) :=
  [("*", simpleSelectorAll),
   ("body", simpleSelectorBody),
   ("id", simpleSelectorId),
   ("publisher", simpleSelectorPublisher),
   ("namespace", simpleSelectorNamespace),
   ("source", simpleSelectorSource),
   ("timestamp", simpleSelectorTimestamp),
   ("counter", simpleSelectorCounter)]

/-- A function over the finished simple result set; `none` is the panic of a failed
type assertion. -/
abbrev FunctionStatementSelector := List Value → Option (List Value)

def countFunctionSelector (res : List Value) : Option (List Value) :=
  some [.scalar (.int res.length)]

/-- The type assertion `val.(int64)`: it panics (`none`) on any other dynamic type. -/
def assertInt64 : Value → Option Int
  | .scalar (.int64 x) => some x
  | _ => none

/-- The loop `for _, val := range res[1:]` of `minFunctionSelector`. -/
def minLoop : Int → List Value → Option Int
  | min, [] => some min
  | min, val :: rest =>
    match assertInt64 val with
    | none => none
    | some xval => if xval < min then minLoop xval rest else minLoop min rest

def minFunctionSelector (res : List Value) : Option (List Value) :=
  match res with
  | [] => some [.scalar (.int 0)]
  | r0 :: rest =>
    match assertInt64 r0 with
    | none => none
    | some min =>
      match minLoop min rest with
      | none => none
      | some min => some [.scalar (.int64 min)]

/-- The loop `for _, val := range res[1:]` of `maxFunctionSelector`. -/
def maxLoop : Int → List Value → Option Int
  | max, [] => some max
  | max, val :: rest =>
    match assertInt64 val with
    | none => none
    | some xval => if xval > max then maxLoop xval rest else maxLoop max rest

def maxFunctionSelector (res : List Value) : Option (List Value) :=
  match res with
  | [] => some [.scalar (.int 0)]
  | r0 :: rest =>
    match assertInt64 r0 with
    | none => none
    | some max =>
      match maxLoop max rest with
      | none => none
      | some max => some [.scalar (.int64 max)]

def functionSelectors : List (String × FunctionStatementSelector) :=
  [("COUNT", countFunctionSelector),
   ("MIN", minFunctionSelector),
   ("MAX", maxFunctionSelector)]

/-- A `map[string]bool` of the allowed selectors; a key that is absent reads `false`. -/
def functionAllowedSelectors : List (String × List (String × Bool)) :=
  [("COUNT",
      [("*", true),
       ("body", true),
       ("id", true),
       ("publisher", true),
       ("namespace", true),
       ("source", true),
       ("timestamp", true),
       ("counter", true)]),
   ("MIN", [("timestamp", true), ("counter", true)]),
   ("MAX", [("timestamp", true), ("counter", true)])]

def checkFunctionSelector (op : String) (sel : SimpleSelector) : Bool :=
  match functionAllowedSelectors.lookup op with
  | none => false
  | some valid => (valid.lookup sel).getD false

/-! ## Result sets -/

/-- The set result: `rset` holds the keys of the Go `map[interface{}]bool` in insertion
order, without repetition (every stored value is `true`). -/
structure SimpleResultSet where
  rset : List Scalar
  res : List Value
  getf : StatementSelector
  limit : Int

def makeSimpleResultSet (getf : StatementSelector) (limit : Int) : SimpleResultSet :=
  { rset := [], res := [], getf := getf, limit := limit }

/-- The assignment `m[key] = true` on the keys of a Go map. -/
def mapInsert (keys : List Scalar) (key : Scalar) : List Scalar :=
  if key ∈ keys then keys else keys ++ [key]

def SimpleResultSet.begin (rs : SimpleResultSet) (_hint : Nat) : SimpleResultSet :=
  rs

def SimpleResultSet.add (rs : SimpleResultSet) (stmt : Statement) : SimpleResultSet :=
  if rs.limit = 0 ∨ (rs.rset.length : Int) < rs.limit then
    { rs with rset := mapInsert rs.rset (rs.getf stmt) }
  else
    rs

def SimpleResultSet.end_ (it : MapRange) (rs : SimpleResultSet) : SimpleResultSet :=
  { rs with res := (it.order rs.rset).map Value.scalar, rset := [] }

def SimpleResultSet.result (rs : SimpleResultSet) : List Value :=
  rs.res

/-- The assignment `val[key] = v` on a `map[string]interface{}`. -/
def objSet : List (String × Scalar) → String → Scalar → List (String × Scalar)
  | [], key, v => [(key, v)]
  | (k, w) :: rest, key, v =>
    if k = key then (k, v) :: rest else (k, w) :: objSet rest key v

/-- The loop of the compound statement selector over `sels` and `getfs` in step. -/
def compoundFill (stmt : Statement) :
    List (String × Scalar) → List SimpleSelector → List StatementSelector → List (String × Scalar)
  | val, sel :: sels, getf :: getfs => compoundFill stmt (objSet val sel (getf stmt)) sels getfs
  | val, _, _ => val

def makeCompoundStatementSelector (sels : List SimpleSelector) (getfs : List StatementSelector) :
    Statement → Value :=
  fun stmt => .obj (compoundFill stmt [] sels getfs)

structure CompoundResultSet where
  rset : List Value
  getf : Statement → Value
  limit : Int

def makeCompoundResultSet (sels : List SimpleSelector) (getfs : List StatementSelector)
    (limit : Int) : CompoundResultSet :=
  let compf := makeCompoundStatementSelector sels getfs
  { rset := [], getf := compf, limit := limit }

def CompoundResultSet.begin (rs : CompoundResultSet) (_hint : Nat) : CompoundResultSet :=
  { rs with rset := [] }

def CompoundResultSet.add (rs : CompoundResultSet) (stmt : Statement) : CompoundResultSet :=
  { rs with rset := rs.rset ++ [rs.getf stmt] }

def CompoundResultSet.end_ (rs : CompoundResultSet) : CompoundResultSet :=
  rs

def CompoundResultSet.result (rs : CompoundResultSet) : List Value :=
  rs.rset

/-- The function result: the inner `rset` is always the simple result set that
`makeFunctionResultSet` creates. -/
structure FunctionResultSet where
  rset : SimpleResultSet
  fun_ : FunctionStatementSelector
  res : List Value

def makeFunctionResultSet (fun_ : FunctionStatementSelector) (getf : StatementSelector)
    (limit : Int) : FunctionResultSet :=
  { rset := makeSimpleResultSet getf limit, fun_ := fun_, res := [] }

def FunctionResultSet.begin (rs : FunctionResultSet) (hint : Nat) : FunctionResultSet :=
  { rs with rset := rs.rset.begin hint }

def FunctionResultSet.add (rs : FunctionResultSet) (stmt : Statement) : FunctionResultSet :=
  { rs with rset := rs.rset.add stmt }

/-- It is `none` when the reduction panics. -/
def FunctionResultSet.end_ (it : MapRange) (rs : FunctionResultSet) : Option FunctionResultSet :=
  let inner := rs.rset.end_ it
  match rs.fun_ inner.result with
  | none => none
  | some res => some { rs with rset := inner, res := res }

def FunctionResultSet.result (rs : FunctionResultSet) : List Value :=
  rs.res

/-- The interface `QueryResultSet` with its three implementations. -/
inductive QueryResultSet where
  | simple (rs : SimpleResultSet)
  | compound (rs : CompoundResultSet)
  | function (rs : FunctionResultSet)

def QueryResultSet.begin : QueryResultSet → Nat → QueryResultSet
  | .simple rs, hint => .simple (rs.begin hint)
  | .compound rs, hint => .compound (rs.begin hint)
  | .function rs, hint => .function (rs.begin hint)

def QueryResultSet.add : QueryResultSet → Statement → QueryResultSet
  | .simple rs, stmt => .simple (rs.add stmt)
  | .compound rs, stmt => .compound (rs.add stmt)
  | .function rs, stmt => .function (rs.add stmt)

def QueryResultSet.end_ (it : MapRange) : QueryResultSet → Option QueryResultSet
  | .simple rs => some (.simple (rs.end_ it))
  | .compound rs => some (.compound rs.end_)
  | .function rs => (rs.end_ it).map .function

def QueryResultSet.result : QueryResultSet → List Value
  | .simple rs => rs.result
  | .compound rs => rs.result
  | .function rs => rs.result

/-- The loop of `makeResultSet` that resolves the names of a compound selector; it stops
at the first name that is not in the registry. -/
def compoundGetfs : List SimpleSelector → Except QueryEvalError (List StatementSelector)
  | [] => .ok []
  | key :: rest =>
    match simpleSelectors.lookup key with
    | none => .error ("Unexpected selector: " ++ key)
    | some getf =>
      match compoundGetfs rest with
      | .error err => .error err
      | .ok getfs => .ok (getf :: getfs)

def makeResultSet (query : Query) : Except QueryEvalError QueryResultSet :=
  match query.selector with
  | .SimpleSelector sel =>
    match simpleSelectors.lookup sel with
    | none => .error ("Unexpected selector: " ++ sel)
    | some getf => .ok (.simple (makeSimpleResultSet getf query.limit))
  | .CompoundSelector sel =>
    match compoundGetfs sel with
    | .error err => .error err
    | .ok getfs => .ok (.compound (makeCompoundResultSet sel getfs query.limit))
  | .FunctionSelector op sel =>
    if !checkFunctionSelector op sel then
      .error ("Illegal selector: " ++ op ++ "(" ++ sel ++ ")")
    else
      match functionSelectors.lookup op with
      | none => .error ("Unexpected selector: " ++ op)
      | some fun_ =>
        match simpleSelectors.lookup sel with
        | none => .error ("Unexpected selector: " ++ sel)
        | some getf => .ok (.function (makeFunctionResultSet fun_ getf query.limit))
  | .other typ => .error ("Unexpected selector type: " ++ typ)

/-! ## The evaluation driver -/

/-- The scan `for _, stmt := range stmts` of `EvalQuery`. -/
def scan (nsfilter cfilter : StatementFilter) : QueryResultSet → List Statement → QueryResultSet
  | rs, [] => rs
  | rs, stmt :: stmts =>
    if nsfilter stmt && cfilter stmt then
      scan nsfilter cfilter (rs.add stmt) stmts
    else
      scan nsfilter cfilter rs stmts

def EvalQuery (it : MapRange) (query : Query) (stmts : List Statement) : Outcome (List Value) :=
  match makeNamespaceFilter query with
  | none => .panic
  | some nsfilter =>
    match makeCriteriaFilter query with
    | .error err => .error err
    | .ok cfilter =>
      match makeResultSet query with
      | .error err => .error err
      | .ok rs =>
        let rs := rs.begin stmts.length
        let rs := scan nsfilter cfilter rs stmts
        match rs.end_ it with
        | none => .panic
        | some rs => .ok rs.result

/-! ## Specification-side notions -/

/-- The records that pass both filters, in input order. -/
def accepted (nsfilter cfilter : StatementFilter) (stmts : List Statement) : List Statement :=
  stmts.filter (fun stmt => nsfilter stmt && cfilter stmt)

/-- The legal pairs of a function and a selector name, in the words of the
specification: COUNT over every selector name, MIN and MAX over timestamp and counter. -/
def legalFunctionSelector (op : String) (name : SimpleSelector) : Bool :=
  decide ((op = "COUNT" ∧
      name ∈ ["*", "body", "id", "publisher", "namespace", "source", "timestamp", "counter"]) ∨
    ((op = "MIN" ∨ op = "MAX") ∧ name ∈ ["timestamp", "counter"]))

/-- The well-formed criteria trees, in the words of the specification. -/
def wellFormedCriteria : QueryCriteria → Bool
  | .ValueCriteria op sel _ =>
    decide (sel ∈ ["id", "publisher", "source"]) && decide (op ∈ ["=", "!="])
  | .RangeCriteria op sel _ =>
    decide (sel ∈ ["timestamp", "counter"]) && decide (op ∈ ["<=", "<", "=", "!=", ">=", ">"])
  | .IndexCriteria sel _ => decide (sel = "wki")
  | .CompoundCriteria op left right =>
    decide (op ∈ ["AND", "OR"]) && wellFormedCriteria left && wellFormedCriteria right
  | .NegatedCriteria e => wellFormedCriteria e
  | .other _ => false

/-- The keys that the scan of a simple selector holds when it ends, starting from the
empty map: the distinct selected values in the order of their first occurrence, cut to
the first `limit` of them when the limit is positive. -/
def storedKeys (limit : Int) (getf : StatementSelector) (l : List Statement) : List Scalar :=
  if limit = 0 then (l.map getf).foldl mapInsert []
  else ((l.map getf).foldl mapInsert []).take limit.toNat

/-- The three records with namespaces a, a, b used in the examples. -/
def exampleStmts : List Statement :=
  [⟨1, "id1", "pubA", "a", 11, 100, ["w1"]⟩,
   ⟨2, "id2", "pubB", "a", 12, 50, []⟩,
   ⟨3, "id3", "pubA", "b", 13, 70, []⟩]

/-- The truth value of a criteria tree on a record, by structural recursion, in the
words of the specification: a value or range leaf compares the named attribute of the
record with the literal (source reads the publisher, counter reads zero), an index leaf
tests membership of the literal in the reference list, AND and OR combine the two
operands, NOT negates. It is meant for well-formed trees only. -/
def criteriaHolds : QueryCriteria → Statement → Bool
  | .ValueCriteria op sel val, s =>
    let a := if sel = "id" then s.Id else s.Publisher
    if op = "=" then decide (a = val) else decide (a ≠ val)
  | .RangeCriteria op sel val, s =>
    let a := if sel = "timestamp" then s.Timestamp else 0
    if op = "<=" then decide (a ≤ val)
    else if op = "<" then decide (a < val)
    else if op = "=" then decide (a = val)
    else if op = "!=" then decide (a ≠ val)
    else if op = ">=" then decide (a ≥ val)
    else decide (a > val)
  | .IndexCriteria _ val, s => decide (val ∈ s.Refs)
  | .CompoundCriteria op left right, s =>
    if op = "AND" then criteriaHolds left s && criteriaHolds right s
    else criteriaHolds left s || criteriaHolds right s
  | .NegatedCriteria e, s => !criteriaHolds e s
  | .other _, _ => false

/-- The truth value of the criteria of a query: an absent criteria accepts every record. -/
def queryCriteriaHolds : Option QueryCriteria → Statement → Bool
  | none, _ => true
  | some c, s => criteriaHolds c s

/-- The accepted prefix of a wildcard pattern, in the words of the specification: the
pattern with its last two bytes removed. -/
def namespacePrefix (ns : String) : List UInt8 :=
  (goBytes ns).take ((goBytes ns).length - 2)

/-- The distinct values of a sequence in the order of their first occurrence. -/
def firstOccurrences : List Scalar → List Scalar
  | [] => []
  | x :: xs => x :: (firstOccurrences xs).filter (fun y => decide (y ≠ x))

/-! ## Peer handles (mc/util.go)

`ParseHandle` indexes and slices its argument, so a handle is kept here as the list of
its bytes; `47` is the byte of `'/'`. The decoders `IDB58Decode` and `NewMultiaddr` belong
to other libraries and are parameters. -/

/-- The peer info `p2p_pstore.PeerInfo`: an identity and the addresses; its types come
from other libraries and are parameters. -/
structure PeerInfo (I A : Type) where
  ID : I
  Addrs : List A
  deriving DecidableEq, Repr

/-- The call `strings.LastIndex(str, "/")`: the index of the last byte `'/'`, and `none`
for the result `-1`. -/
def lastIndexSlash : List UInt8 → Option Nat
  | [] => none
  | b :: rest =>
    match lastIndexSlash rest with
    | some i => some (i + 1)
    | none => if b = 47 then some 0 else none

def ParseHandleId {E I A : Type} (IDB58Decode : List UInt8 → Except E I) (str : List UInt8) :
    Except E (PeerInfo I A) :=
  match IDB58Decode str with
  | .error err => .error err
  | .ok pid => .ok { ID := pid, Addrs := [] }

def ParseHandle {E I A : Type} (IDB58Decode : List UInt8 → Except E I)
    (NewMultiaddr : List UInt8 → Except E A) (str : List UInt8) : Except E (PeerInfo I A) :=
  match lastIndexSlash str with
  | none => ParseHandleId IDB58Decode str
  | some ix =>
    let id := str.drop (ix + 1)
    let addr :=
      match lastIndexSlash (str.take ix) with
      | none => str.take ix
      | some iy =>
        if (str.take ix).drop (iy + 1) = goBytes "p2p" then str.take iy else str.take ix
    match IDB58Decode id with
    | .error err => .error err
    | .ok pid =>
      if addr = [] then
        .ok { ID := pid, Addrs := [] }
      else
        match NewMultiaddr addr with
        | .error err => .error err
        | .ok maddr => .ok { ID := pid, Addrs := [maddr] }

/-- The last of the components of an address that the byte `'/'` separates. -/
def lastComponent (addr : List UInt8) : List UInt8 :=
  (addr.reverse.takeWhile (fun b => decide (b ≠ 47))).reverse

/-- The peer info of a handle whose address part is `addr` and whose id part is `id`:
the identity decoded from `id`, with the address decoded from `addr` unless `addr` is
empty; the error of the first decoder that fails. -/
def peerInfoOf {E I A : Type} (IDB58Decode : List UInt8 → Except E I)
    (NewMultiaddr : List UInt8 → Except E A) (addr id : List UInt8) : Except E (PeerInfo I A) :=
  match IDB58Decode id, addr with
  | .error err, _ => .error err
  | .ok pid, [] => .ok { ID := pid, Addrs := [] }
  | .ok pid, b :: rest =>
    match NewMultiaddr (b :: rest) with
    | .error err => .error err
    | .ok maddr => .ok { ID := pid, Addrs := [maddr] }

/-! ## The scan -/

theorem scan_eq_foldl (nsf cf : StatementFilter) (stmts : List Statement) (rs : QueryResultSet) :
    scan nsf cf rs stmts = (accepted nsf cf stmts).foldl QueryResultSet.add rs := by
  induction stmts generalizing rs with
  | nil => rfl
  | cons s rest ih =>
    by_cases h : (nsf s && cf s) = true
    · simp only [scan, h, accepted, List.filter_cons, if_true, List.foldl_cons]
      exact ih _
    · simp only [scan, h, accepted, List.filter_cons, if_false]
      exact ih _

theorem foldl_add_compound (l : List Statement) (rs : CompoundResultSet) :
    l.foldl QueryResultSet.add (.compound rs)
      = .compound { rs with rset := rs.rset ++ l.map rs.getf } := by
  induction l generalizing rs with
  | nil => simp
  | cons s rest ih =>
    simp only [List.foldl_cons, QueryResultSet.add, CompoundResultSet.add]
    rw [ih]
    simp

/-! ## Compound selectors -/

theorem lookup_cons_ite {β : Type} (k a : String) (b : β) (l : List (String × β)) :
    List.lookup k ((a, b) :: l) = if k = a then some b else List.lookup k l := by
  by_cases h : k = a
  · subst h
    simp [List.lookup]
  · have hb : (k == a) = false := by simpa using h
    simp [List.lookup, hb, h]

theorem lookup_objSet (m : List (String × Scalar)) (key : String) (v : Scalar) (k : String) :
    (objSet m key v).lookup k = if k = key then some v else m.lookup k := by
  induction m with
  | nil => simp [objSet, lookup_cons_ite]
  | cons p rest ih =>
    obtain ⟨a, w⟩ := p
    by_cases ha : a = key
    · subst ha
      by_cases h : k = a
      · simp [objSet, lookup_cons_ite, h]
      · simp [objSet, lookup_cons_ite, h]
    · by_cases h : k = key
      · subst h
        have hka : ¬ k = a := fun e => ha e.symm
        simp [objSet, lookup_cons_ite, ha, hka, ih]
      · simp [objSet, lookup_cons_ite, ha, h, ih]

theorem compoundGetfs_ok (names : List SimpleSelector)
    (hres : ∀ n ∈ names, (simpleSelectors.lookup n).isSome = true) :
    ∃ getfs, compoundGetfs names = .ok getfs ∧
      List.Forall₂ (fun n g => simpleSelectors.lookup n = some g) names getfs := by
  induction names with
  | nil => exact ⟨[], rfl, List.Forall₂.nil⟩
  | cons n rest ih =>
    obtain ⟨getfs, hok, hall⟩ := ih (fun m hm => hres m (List.mem_cons_of_mem _ hm))
    have hn := hres n (List.mem_cons_self _ _)
    obtain ⟨g, hg⟩ := Option.isSome_iff_exists.mp hn
    refine ⟨g :: getfs, ?_, List.Forall₂.cons hg hall⟩
    simp [compoundGetfs, hg, hok]

theorem lookup_compoundFill (stmt : Statement) (names : List SimpleSelector)
    (getfs : List StatementSelector)
    (hall : List.Forall₂ (fun n g => simpleSelectors.lookup n = some g) names getfs)
    (val : List (String × Scalar)) (name : String) :
    (compoundFill stmt val names getfs).lookup name
      = if name ∈ names then (simpleSelectors.lookup name).map (fun getf => getf stmt)
        else val.lookup name := by
  induction hall generalizing val with
  | nil => simp [compoundFill]
  | @cons n g ns gs hg _ ih =>
    simp only [compoundFill]
    rw [ih, lookup_objSet]
    by_cases h1 : name ∈ ns
    · simp [h1]
    · by_cases h2 : name = n
      · subst h2
        simp [h1, hg]
      · simp [h1, h2]

/-! ## The set of a simple selector -/

theorem foldl_add_simple (l : List Statement) (rs : SimpleResultSet) :
    l.foldl QueryResultSet.add (.simple rs) = .simple (l.foldl SimpleResultSet.add rs) := by
  induction l generalizing rs with
  | nil => rfl
  | cons s rest ih => simp only [List.foldl_cons, QueryResultSet.add, ih]

theorem foldl_add_function (l : List Statement) (rs : FunctionResultSet) :
    l.foldl QueryResultSet.add (.function rs)
      = .function { rs with rset := l.foldl SimpleResultSet.add rs.rset } := by
  induction l generalizing rs with
  | nil => rfl
  | cons s rest ih => simp only [List.foldl_cons, QueryResultSet.add, FunctionResultSet.add, ih]

theorem mapInsert_nodup (keys : List Scalar) (key : Scalar) (h : keys.Nodup) :
    (mapInsert keys key).Nodup := by
  unfold mapInsert
  split
  · exact h
  · rename_i hk
    exact List.Nodup.append h (List.nodup_singleton key) (by simpa using hk)

theorem mem_mapInsert (keys : List Scalar) (key x : Scalar) :
    x ∈ mapInsert keys key ↔ x ∈ keys ∨ x = key := by
  unfold mapInsert
  split
  · rename_i hk
    constructor
    · intro h
      exact Or.inl h
    · rintro (h | h)
      · exact h
      · exact h ▸ hk
  · simp

theorem foldl_mapInsert_nodup (vals keys : List Scalar) (h : keys.Nodup) :
    (vals.foldl mapInsert keys).Nodup := by
  induction vals generalizing keys with
  | nil => exact h
  | cons v rest ih => exact ih _ (mapInsert_nodup keys v h)

theorem mem_foldl_mapInsert (vals keys : List Scalar) (x : Scalar) :
    x ∈ vals.foldl mapInsert keys ↔ x ∈ keys ∨ x ∈ vals := by
  induction vals generalizing keys with
  | nil => simp
  | cons v rest ih =>
    simp only [List.foldl_cons, ih, mem_mapInsert, List.mem_cons]
    tauto

theorem foldl_mapInsert_append (vals keys : List Scalar) :
    ∃ t, vals.foldl mapInsert keys = keys ++ t := by
  induction vals generalizing keys with
  | nil => exact ⟨[], by simp⟩
  | cons v rest ih =>
    obtain ⟨t, ht⟩ := ih (mapInsert keys v)
    by_cases hv : v ∈ keys
    · refine ⟨t, ?_⟩
      simpa [mapInsert, hv] using ht
    · refine ⟨[v] ++ t, ?_⟩
      simpa [mapInsert, hv] using ht

theorem length_foldl_mapInsert (vals : List Scalar) :
    (vals.foldl mapInsert []).length = vals.dedup.length := by
  rw [← List.card_toFinset vals,
    ← List.toFinset_card_of_nodup (foldl_mapInsert_nodup vals [] List.nodup_nil)]
  congr 1
  ext x
  simp [mem_foldl_mapInsert]

theorem foldl_add_unbounded (l : List Statement) (rs : SimpleResultSet) (h : rs.limit = 0) :
    l.foldl SimpleResultSet.add rs
      = { rs with rset := (l.map rs.getf).foldl mapInsert rs.rset } := by
  induction l generalizing rs with
  | nil => rfl
  | cons s rest ih =>
    have hadd : rs.add s = { rs with rset := mapInsert rs.rset (rs.getf s) } := by
      simp [SimpleResultSet.add, h]
    rw [List.foldl_cons, hadd, ih { rs with rset := mapInsert rs.rset (rs.getf s) } h]
    rfl

theorem foldl_add_bounded (l : List Statement) (rs : SimpleResultSet) (n : Nat)
    (hn : rs.limit = (n : Int)) (hpos : 0 < n) (hlen : rs.rset.length ≤ n) :
    l.foldl SimpleResultSet.add rs
      = { rs with rset := ((l.map rs.getf).foldl mapInsert rs.rset).take n } := by
  induction l generalizing rs with
  | nil =>
    simp only [List.foldl_nil, List.map_nil]
    rw [List.take_of_length_le hlen]
  | cons s rest ih =>
    by_cases hlt : rs.rset.length < n
    · have hadd : rs.add s = { rs with rset := mapInsert rs.rset (rs.getf s) } := by
        have h2 : (rs.rset.length : Int) < rs.limit := by rw [hn]; exact_mod_cast hlt
        simp [SimpleResultSet.add, h2]
      have hlen2 : (mapInsert rs.rset (rs.getf s)).length ≤ n := by
        unfold mapInsert
        split
        · exact hlen
        · simp only [List.length_append, List.length_singleton]
          omega
      rw [List.foldl_cons, hadd,
        ih { rs with rset := mapInsert rs.rset (rs.getf s) } hn hlen2]
      rfl
    · have heq : rs.rset.length = n := by omega
      have hadd : rs.add s = rs := by
        have h1 : ¬ rs.limit = 0 := by rw [hn]; exact_mod_cast (Nat.pos_iff_ne_zero.mp hpos)
        have h2 : ¬ (rs.rset.length : Int) < rs.limit := by
          rw [hn]
          exact_mod_cast hlt
        simp [SimpleResultSet.add, h1, h2]
      rw [List.foldl_cons, hadd, ih rs hn hlen]
      obtain ⟨t1, ht1⟩ := foldl_mapInsert_append (rest.map rs.getf) rs.rset
      obtain ⟨t2, ht2⟩ := foldl_mapInsert_append ((s :: rest).map rs.getf) rs.rset
      rw [ht1, ht2, List.take_append_of_le_length (le_of_eq heq.symm),
        List.take_append_of_le_length (le_of_eq heq.symm)]

theorem foldl_add_make (l : List Statement) (getf : StatementSelector) (limit : Int)
    (hlim : 0 ≤ limit) :
    l.foldl SimpleResultSet.add (makeSimpleResultSet getf limit)
      = { makeSimpleResultSet getf limit with rset := storedKeys limit getf l } := by
  unfold storedKeys
  by_cases h0 : limit = 0
  · rw [if_pos h0]
    exact foldl_add_unbounded l _ h0
  · rw [if_neg h0]
    have hn : limit = (limit.toNat : Int) := (Int.toNat_of_nonneg hlim).symm
    have hpos : 0 < limit.toNat := by omega
    exact foldl_add_bounded l (makeSimpleResultSet getf limit) limit.toNat hn hpos
      (by simp [makeSimpleResultSet])

theorem storedKeys_nodup (limit : Int) (getf : StatementSelector) (l : List Statement) :
    (storedKeys limit getf l).Nodup := by
  unfold storedKeys
  split
  · exact foldl_mapInsert_nodup _ _ List.nodup_nil
  · exact List.Nodup.sublist (List.take_sublist _ _) (foldl_mapInsert_nodup _ _ List.nodup_nil)

theorem mem_storedKeys_zero (getf : StatementSelector) (l : List Statement) (x : Scalar) :
    x ∈ storedKeys 0 getf l ↔ ∃ stmt ∈ l, x = getf stmt := by
  simp only [storedKeys, if_true, mem_foldl_mapInsert, List.mem_map, List.not_mem_nil, false_or]
  constructor
  · rintro ⟨s, hs, rfl⟩
    exact ⟨s, hs, rfl⟩
  · rintro ⟨s, hs, rfl⟩
    exact ⟨s, hs, rfl⟩

theorem length_storedKeys_zero (getf : StatementSelector) (l : List Statement) :
    (storedKeys 0 getf l).length = (l.map getf).dedup.length := by
  simp [storedKeys, length_foldl_mapInsert]

theorem length_storedKeys_pos (limit : Int) (hlim : 0 < limit) (getf : StatementSelector)
    (l : List Statement) :
    (storedKeys limit getf l).length = min limit.toNat (l.map getf).dedup.length := by
  have h0 : ¬ limit = 0 := by omega
  simp [storedKeys, h0, length_foldl_mapInsert]

/-- The outcome of `EvalQuery` on a simple selector that resolves. -/
theorem EvalQuery_simple_eq (it : MapRange) (query : Query) (name : SimpleSelector)
    (getf : StatementSelector) (stmts : List Statement) (nsfilter cfilter : StatementFilter)
    (hsel : query.selector = .SimpleSelector name)
    (hget : simpleSelectors.lookup name = some getf)
    (hlim : 0 ≤ query.limit)
    (hns : makeNamespaceFilter query = some nsfilter)
    (hc : makeCriteriaFilter query = .ok cfilter) :
    EvalQuery it query stmts
      = .ok ((it.order (storedKeys query.limit getf (accepted nsfilter cfilter stmts))).map
          Value.scalar) := by
  simp only [EvalQuery, hns, hc, makeResultSet, hsel, hget, QueryResultSet.begin,
    SimpleResultSet.begin, scan_eq_foldl, foldl_add_simple, foldl_add_make _ _ _ hlim,
    QueryResultSet.end_, SimpleResultSet.end_, QueryResultSet.result, SimpleResultSet.result]

theorem scalar_injective : Function.Injective Value.scalar := by
  intro a b h
  cases h
  rfl

/-! ## Functions over the set -/

/-- The outcome of `EvalQuery` on a function selector that `makeResultSet` accepts. -/
theorem EvalQuery_function_eq (it : MapRange) (query : Query) (op : String)
    (name : SimpleSelector) (fun_ : FunctionStatementSelector) (getf : StatementSelector)
    (stmts : List Statement) (nsfilter cfilter : StatementFilter)
    (hsel : query.selector = .FunctionSelector op name)
    (hcheck : checkFunctionSelector op name = true)
    (hfun : functionSelectors.lookup op = some fun_)
    (hget : simpleSelectors.lookup name = some getf)
    (hns : makeNamespaceFilter query = some nsfilter)
    (hc : makeCriteriaFilter query = .ok cfilter) :
    EvalQuery it query stmts
      = match fun_ ((it.order ((accepted nsfilter cfilter stmts).foldl SimpleResultSet.add
            (makeSimpleResultSet getf query.limit)).rset).map Value.scalar) with
        | none => .panic
        | some res => .ok res := by
  simp only [EvalQuery, hns, hc, makeResultSet, hsel, hcheck, hfun, hget, QueryResultSet.begin,
    FunctionResultSet.begin, SimpleResultSet.begin, scan_eq_foldl, foldl_add_function,
    QueryResultSet.end_, FunctionResultSet.end_, SimpleResultSet.end_, SimpleResultSet.result,
    makeFunctionResultSet, Bool.not_true, Bool.false_eq_true, if_false]
  cases fun_ (List.map Value.scalar (it.order (List.foldl SimpleResultSet.add
    (makeSimpleResultSet getf query.limit) (accepted nsfilter cfilter stmts)).rset)) with
  | none => rfl
  | some res => rfl

theorem checkFunctionSelector_COUNT (name : SimpleSelector)
    (h : (simpleSelectors.lookup name).isSome = true) :
    checkFunctionSelector "COUNT" name = true := by
  simp only [simpleSelectors, lookup_cons_ite, List.lookup_nil] at h
  simp only [checkFunctionSelector, functionAllowedSelectors, lookup_cons_ite, List.lookup_nil,
    if_true]
  split_ifs at h ⊢ <;> simp_all

theorem exists_int64_list (l : List Scalar) (h : ∀ x ∈ l, ∃ t, x = Scalar.int64 t) :
    ∃ ts : List Int, l = ts.map Scalar.int64 := by
  induction l with
  | nil => exact ⟨[], rfl⟩
  | cons x rest ih =>
    obtain ⟨t, ht⟩ := h x (List.mem_cons_self _ _)
    obtain ⟨ts, hts⟩ := ih (fun y hy => h y (List.mem_cons_of_mem _ hy))
    exact ⟨t :: ts, by simp [ht, hts]⟩

theorem minLoop_int64 (ts : List Int) (m : Int) :
    ∃ r, minLoop m (ts.map (fun t => Value.scalar (Scalar.int64 t))) = some r ∧
      r ≤ m ∧ (∀ t ∈ ts, r ≤ t) ∧ (r = m ∨ r ∈ ts) := by
  induction ts generalizing m with
  | nil => exact ⟨m, rfl, le_refl m, by simp, Or.inl rfl⟩
  | cons t rest ih =>
    by_cases hlt : t < m
    · obtain ⟨r, hr, hle, hall, hmem⟩ := ih t
      refine ⟨r, by simp [minLoop, assertInt64, hlt, hr], by omega, ?_, ?_⟩
      · intro u hu
        rcases List.mem_cons.mp hu with h | h
        · omega
        · exact hall u h
      · rcases hmem with h | h
        · exact Or.inr (h ▸ List.mem_cons_self _ _)
        · exact Or.inr (List.mem_cons_of_mem _ h)
    · obtain ⟨r, hr, hle, hall, hmem⟩ := ih m
      refine ⟨r, by simp [minLoop, assertInt64, hlt, hr], hle, ?_, ?_⟩
      · intro u hu
        rcases List.mem_cons.mp hu with h | h
        · omega
        · exact hall u h
      · rcases hmem with h | h
        · exact Or.inl h
        · exact Or.inr (List.mem_cons_of_mem _ h)

theorem maxLoop_int64 (ts : List Int) (m : Int) :
    ∃ r, maxLoop m (ts.map (fun t => Value.scalar (Scalar.int64 t))) = some r ∧
      m ≤ r ∧ (∀ t ∈ ts, t ≤ r) ∧ (r = m ∨ r ∈ ts) := by
  induction ts generalizing m with
  | nil => exact ⟨m, rfl, le_refl m, by simp, Or.inl rfl⟩
  | cons t rest ih =>
    by_cases hlt : t > m
    · obtain ⟨r, hr, hle, hall, hmem⟩ := ih t
      refine ⟨r, by simp [maxLoop, assertInt64, hlt, hr], by omega, ?_, ?_⟩
      · intro u hu
        rcases List.mem_cons.mp hu with h | h
        · omega
        · exact hall u h
      · rcases hmem with h | h
        · exact Or.inr (h ▸ List.mem_cons_self _ _)
        · exact Or.inr (List.mem_cons_of_mem _ h)
    · obtain ⟨r, hr, hle, hall, hmem⟩ := ih m
      refine ⟨r, by simp [maxLoop, assertInt64, hlt, hr], hle, ?_, ?_⟩
      · intro u hu
        rcases List.mem_cons.mp hu with h | h
        · omega
        · exact hall u h
      · rcases hmem with h | h
        · exact Or.inl h
        · exact Or.inr (List.mem_cons_of_mem _ h)

theorem minFunctionSelector_int64 (ts : List Int) (hne : ts ≠ []) :
    ∃ r, minFunctionSelector (ts.map (fun t => Value.scalar (Scalar.int64 t)))
        = some [Value.scalar (Scalar.int64 r)] ∧ r ∈ ts ∧ ∀ t ∈ ts, r ≤ t := by
  cases ts with
  | nil => exact absurd rfl hne
  | cons t rest =>
    obtain ⟨r, hr, hle, hall, hmem⟩ := minLoop_int64 rest t
    refine ⟨r, by simp [minFunctionSelector, assertInt64, hr], ?_, ?_⟩
    · rcases hmem with h | h
      · exact h ▸ List.mem_cons_self _ _
      · exact List.mem_cons_of_mem _ h
    · intro u hu
      rcases List.mem_cons.mp hu with h | h
      · omega
      · exact hall u h

theorem maxFunctionSelector_int64 (ts : List Int) (hne : ts ≠ []) :
    ∃ r, maxFunctionSelector (ts.map (fun t => Value.scalar (Scalar.int64 t)))
        = some [Value.scalar (Scalar.int64 r)] ∧ r ∈ ts ∧ ∀ t ∈ ts, t ≤ r := by
  cases ts with
  | nil => exact absurd rfl hne
  | cons t rest =>
    obtain ⟨r, hr, hle, hall, hmem⟩ := maxLoop_int64 rest t
    refine ⟨r, by simp [maxFunctionSelector, assertInt64, hr], ?_, ?_⟩
    · rcases hmem with h | h
      · exact h ▸ List.mem_cons_self _ _
      · exact List.mem_cons_of_mem _ h
    · intro u hu
      rcases List.mem_cons.mp hu with h | h
      · omega
      · exact hall u h

/-- The timestamps that a scan over the selector timestamp with limit 0 hands to the
reduction: a list of `int64` values whose elements are the timestamps of the accepted
records. -/
theorem timestamp_keys (it : MapRange) (l : List Statement) :
    ∃ ts : List Int,
      (it.order (l.foldl SimpleResultSet.add (makeSimpleResultSet simpleSelectorTimestamp 0)).rset).map
          Value.scalar = ts.map (fun t => Value.scalar (Scalar.int64 t)) ∧
      ∀ t, t ∈ ts ↔ ∃ stmt ∈ l, stmt.Timestamp = t := by
  rw [foldl_add_make l simpleSelectorTimestamp 0 (le_refl 0)]
  have hmem : ∀ x, x ∈ it.order (storedKeys 0 simpleSelectorTimestamp l)
      ↔ ∃ stmt ∈ l, x = Scalar.int64 stmt.Timestamp := by
    intro x
    rw [(it.perm _).mem_iff, mem_storedKeys_zero]
    rfl
  obtain ⟨ts, hts⟩ := exists_int64_list (it.order (storedKeys 0 simpleSelectorTimestamp l))
    (fun x hx => by
      obtain ⟨s, _, hs⟩ := (hmem x).mp hx
      exact ⟨s.Timestamp, hs⟩)
  refine ⟨ts, by simp [hts], ?_⟩
  intro t
  have h := hmem (Scalar.int64 t)
  rw [hts] at h
  simp only [List.mem_map, Scalar.int64.injEq, exists_eq_right] at h
  rw [h]
  constructor
  · rintro ⟨s, hs, e⟩
    exact ⟨s, hs, e.symm⟩
  · rintro ⟨s, hs, e⟩
    exact ⟨s, hs, e.symm⟩

/-! ## Legality of function selectors and of criteria -/

theorem checkFunctionSelector_eq_legal (op : String) (name : SimpleSelector) :
    checkFunctionSelector op name = legalFunctionSelector op name := by
  simp only [checkFunctionSelector, legalFunctionSelector, functionAllowedSelectors,
    lookup_cons_ite, List.lookup_nil]
  by_cases h1 : op = "COUNT"
  · subst h1
    simp only [if_true, lookup_cons_ite, List.lookup_nil]
    split_ifs <;> simp_all
  · by_cases h2 : op = "MIN"
    · subst h2
      have e1 : ¬ ("MIN" = "COUNT") := by decide
      simp only [e1, if_false, if_true, lookup_cons_ite, List.lookup_nil]
      split_ifs <;> simp_all
    · by_cases h3 : op = "MAX"
      · subst h3
        have e1 : ¬ ("MAX" = "COUNT") := by decide
        have e2 : ¬ ("MAX" = "MIN") := by decide
        simp only [e1, e2, if_false, if_true, lookup_cons_ite, List.lookup_nil]
        split_ifs <;> simp_all
      · simp [h1, h2, h3]

theorem lookups_of_checkFunctionSelector (op : String) (name : SimpleSelector)
    (h : checkFunctionSelector op name = true) :
    (∃ fun_, functionSelectors.lookup op = some fun_) ∧
      ∃ getf, simpleSelectors.lookup name = some getf := by
  have hl : legalFunctionSelector op name = true := by
    rw [← checkFunctionSelector_eq_legal]
    exact h
  simp only [legalFunctionSelector, decide_eq_true_eq, List.mem_cons, List.mem_singleton,
    List.not_mem_nil, or_false] at hl
  rcases hl with ⟨rfl, hn⟩ | ⟨rfl | rfl, hn⟩
  · rcases hn with rfl | rfl | rfl | rfl | rfl | rfl | rfl | rfl <;>
      exact ⟨⟨_, rfl⟩, ⟨_, rfl⟩⟩
  · rcases hn with rfl | rfl <;> exact ⟨⟨_, rfl⟩, ⟨_, rfl⟩⟩
  · rcases hn with rfl | rfl <;> exact ⟨⟨_, rfl⟩, ⟨_, rfl⟩⟩

/-! ## The meaning of compiled criteria -/

theorem indexCriteriaContains_iff (keys : List String) (val : String) :
    indexCriteriaContains keys val = true ↔ val ∈ keys := by
  induction keys with
  | nil => simp [indexCriteriaContains]
  | cons key rest ih =>
    by_cases h : key = val
    · simp [indexCriteriaContains, h]
    · have h2 : ¬ val = key := fun e => h e.symm
      simp [indexCriteriaContains, h, h2, ih]

theorem beq_decide {α : Type} [DecidableEq α] (a b : α) : (a == b) = decide (a = b) := by
  by_cases h : a = b <;> simp [h]

theorem makeCriteriaFilterF_holds (c : QueryCriteria) (hwf : wellFormedCriteria c = true) :
    ∃ filter, makeCriteriaFilterF c = .ok filter ∧ ∀ s, filter s = criteriaHolds c s := by
  induction c with
  | ValueCriteria op sel val =>
    simp only [wellFormedCriteria, Bool.and_eq_true, decide_eq_true_eq, List.mem_cons,
      List.mem_singleton, List.not_mem_nil, or_false] at hwf
    obtain ⟨hsel, hop⟩ := hwf
    rcases hsel with rfl | rfl | rfl <;> rcases hop with rfl | rfl <;>
      exact ⟨_, rfl, fun s => by
        simp [criteriaHolds, valueCriteriaEQ, valueCriteriaNE, idCriteriaFilter,
          publisherCriteriaFilter, sourceCriteriaFilter, bne, beq_decide]⟩
  | RangeCriteria op sel val =>
    simp only [wellFormedCriteria, Bool.and_eq_true, decide_eq_true_eq, List.mem_cons,
      List.mem_singleton, List.not_mem_nil, or_false] at hwf
    obtain ⟨hsel, hop⟩ := hwf
    rcases hsel with rfl | rfl <;> rcases hop with rfl | rfl | rfl | rfl | rfl | rfl <;>
      exact ⟨_, rfl, fun s => by
        simp [criteriaHolds, rangeFilterLTEQ, rangeFilterLT, rangeFilterEQ, rangeFilterNE,
          rangeFilterGTEQ, rangeFilterGT, timestampCriteriaFilter, counterCriteriaFilter,
          bne, beq_decide]⟩
  | IndexCriteria sel val =>
    simp only [wellFormedCriteria, decide_eq_true_eq] at hwf
    subst hwf
    refine ⟨_, rfl, fun s => ?_⟩
    rw [Bool.eq_iff_iff, indexCriteriaContains_iff]
    simp [criteriaHolds, wkiCriteriaFilter, StatementRefs]
  | CompoundCriteria op left right ihl ihr =>
    simp only [wellFormedCriteria, Bool.and_eq_true, decide_eq_true_eq, List.mem_cons,
      List.mem_singleton, List.not_mem_nil, or_false] at hwf
    obtain ⟨⟨hop, hl⟩, hr⟩ := hwf
    obtain ⟨fl, hfl, hsl⟩ := ihl hl
    obtain ⟨fr, hfr, hsr⟩ := ihr hr
    rcases hop with rfl | rfl
    · refine ⟨fun stmt => compoundCriteriaAND stmt fl fr, ?_, fun s => ?_⟩
      · simp only [makeCriteriaFilterF, hfl, hfr]
        rfl
      · simp [criteriaHolds, compoundCriteriaAND, hsl, hsr]
    · refine ⟨fun stmt => compoundCriteriaOR stmt fl fr, ?_, fun s => ?_⟩
      · simp only [makeCriteriaFilterF, hfl, hfr]
        rfl
      · simp [criteriaHolds, compoundCriteriaOR, hsl, hsr]
  | NegatedCriteria e ih =>
    obtain ⟨f, hf, hs⟩ := ih hwf
    exact ⟨fun stmt => !f stmt, by simp only [makeCriteriaFilterF, hf],
      fun s => by simp [criteriaHolds, hs]⟩
  | other typ => simp [wellFormedCriteria] at hwf

/-! ## The UTF-8 bytes of a pattern -/

theorem goBytes_eq (s : String) : goBytes s = s.data.flatMap String.utf8EncodeChar := rfl

theorem utf8EncodeChar_ne_nil (c : Char) : String.utf8EncodeChar c ≠ [] := by
  intro h
  have h2 := String.length_utf8EncodeChar c
  rw [h] at h2
  have h3 := Char.utf8Size_pos c
  simp at h2
  omega

theorem uint8_eq_ofNat (x : UInt8) : x = UInt8.ofNat x.toNat := by
  obtain ⟨bv⟩ := x
  simp [UInt8.ofNat, UInt8.toNat]

set_option maxRecDepth 100000 in
theorem continuation_byte_aux :
    ∀ n : Fin 256, (UInt8.ofNat n.val &&& 0x3f ||| 0x80) ≠ 42 := by
  decide

/-- The last byte of a multi-byte UTF-8 sequence is never the byte of `'*'`. -/
theorem continuation_byte_ne (x : UInt8) : (x &&& 0x3f ||| 0x80) ≠ 42 := by
  rw [uint8_eq_ofNat x]
  exact continuation_byte_aux ⟨x.toNat, x.toNat_lt⟩

theorem toUInt8_eq_star (v : UInt32) (hv : v ≤ 127) (h : v.toUInt8 = 42) : v = 42 := by
  have h1 : (UInt8.ofNat v.toNat).toNat = v.toNat % 256 := UInt8.toNat_ofNat v.toNat
  have h2 : (UInt8.ofNat v.toNat) = 42 := h
  rw [h2] at h1
  have h3 : v.toNat ≤ 127 := hv
  have h4 : (42 : UInt8).toNat = 42 := rfl
  rw [h4] at h1
  apply UInt32.ext
  have h5 : (42 : UInt32).toNat = 42 := rfl
  rw [h5]
  omega

theorem getLast_utf8EncodeChar (c : Char) :
    (String.utf8EncodeChar c).getLast? = some 42 ↔ c = '*' := by
  constructor
  · intro h
    unfold String.utf8EncodeChar at h
    simp only at h
    split_ifs at h with h1 h2 h3
    · simp at h
      apply Char.ext
      exact toUInt8_eq_star c.val h1 h
    · simp [continuation_byte_ne] at h
    · simp [continuation_byte_ne] at h
    · simp [continuation_byte_ne] at h
  · rintro rfl
    decide

theorem getLast_goBytes_append (l : List Char) (c : Char) :
    (goBytes ⟨l ++ [c]⟩).getLast? = (String.utf8EncodeChar c).getLast? := by
  rw [goBytes_eq]
  simp only [List.flatMap_append, List.flatMap_cons, List.flatMap_nil, List.append_nil]
  rw [List.getLast?_append_of_ne_nil _ (utf8EncodeChar_ne_nil c)]

/-- The test `ns[len(ns)-1] == '*'` on bytes holds exactly when the last character of the
pattern is `'*'`. -/
theorem getLast_goBytes (s : String) :
    (goBytes s).getLast? = some 42 ↔ s.data.getLast? = some '*' := by
  obtain ⟨l⟩ := s
  rcases List.eq_nil_or_concat l with rfl | ⟨l2, c, rfl⟩
  · simp [goBytes_eq]
  · rw [List.concat_eq_append, getLast_goBytes_append, getLast_utf8EncodeChar]
    simp

theorem goBytes_ne_nil (s : String) (h : s ≠ "") : goBytes s ≠ [] := by
  rw [goBytes_eq]
  obtain ⟨l⟩ := s
  cases l with
  | nil => exact absurd rfl h
  | cons c cs => simp [List.flatMap_cons, utf8EncodeChar_ne_nil]

/-- A pattern other than `*` that ends in `'*'` has at least two bytes: the slice
`ns[:len(ns)-2]` is in bounds. -/
theorem two_le_length_goBytes (s : String) (hstar : s ≠ "*")
    (hlast : s.data.getLast? = some '*') : 2 ≤ (goBytes s).length := by
  obtain ⟨l⟩ := s
  rcases List.eq_nil_or_concat l with rfl | ⟨l2, c, rfl⟩
  · simp at hlast
  · rw [List.concat_eq_append] at hlast hstar ⊢
    have hc : c = '*' := by simpa using hlast
    subst hc
    cases l2 with
    | nil => exact absurd rfl hstar
    | cons d ds =>
      rw [goBytes_eq]
      simp only [List.cons_append, List.flatMap_cons, List.flatMap_append, List.flatMap_nil,
        List.append_nil, List.length_append]
      have h1 : 0 < (String.utf8EncodeChar d).length :=
        List.length_pos.mpr (utf8EncodeChar_ne_nil d)
      have h2 : 0 < (String.utf8EncodeChar '*').length :=
        List.length_pos.mpr (utf8EncodeChar_ne_nil '*')
      omega

/-! ## The three branches of the namespace filter -/

theorem makeNamespaceFilter_all (query : Query) (h : query.namespace_ = "*") :
    makeNamespaceFilter query = some emptyFilter := by
  simp [makeNamespaceFilter, h]

theorem makeNamespaceFilter_wildcard (query : Query) (hstar : query.namespace_ ≠ "*")
    (hlast : query.namespace_.data.getLast? = some '*') :
    makeNamespaceFilter query
      = some (fun stmt =>
          (namespacePrefix query.namespace_).isPrefixOf (goBytes stmt.Namespace)) := by
  have h1 := (getLast_goBytes query.namespace_).mpr hlast
  have h2 : ¬ (goBytes query.namespace_).length < 2 :=
    Nat.not_lt.mpr (two_le_length_goBytes _ hstar hlast)
  simp only [makeNamespaceFilter, hstar, if_false, h1, if_true, h2, namespacePrefix]

theorem makeNamespaceFilter_literal (query : Query) (hne : query.namespace_ ≠ "")
    (hlast : query.namespace_.data.getLast? ≠ some '*') :
    makeNamespaceFilter query = some (fun stmt => decide (stmt.Namespace = query.namespace_)) := by
  have hstar : query.namespace_ ≠ "*" := by
    intro h
    rw [h] at hlast
    exact hlast (by decide)
  obtain ⟨b, hb⟩ : ∃ b, (goBytes query.namespace_).getLast? = some b := by
    cases hg : (goBytes query.namespace_).getLast? with
    | none => exact absurd (List.getLast?_eq_none_iff.mp hg) (goBytes_ne_nil _ hne)
    | some b => exact ⟨b, rfl⟩
  have hb2 : ¬ b = 42 := by
    intro h
    rw [h] at hb
    exact hlast ((getLast_goBytes _).mp hb)
  simp only [makeNamespaceFilter, hstar, if_false, hb, hb2]

/-- The namespace filter is built for every pattern that is not empty. -/
theorem makeNamespaceFilter_isSome (query : Query) (hne : query.namespace_ ≠ "") :
    ∃ nsfilter, makeNamespaceFilter query = some nsfilter := by
  by_cases hstar : query.namespace_ = "*"
  · exact ⟨_, makeNamespaceFilter_all query hstar⟩
  · by_cases hlast : query.namespace_.data.getLast? = some '*'
    · exact ⟨_, makeNamespaceFilter_wildcard query hstar hlast⟩
    · exact ⟨_, makeNamespaceFilter_literal query hne hlast⟩

/-! ## The stored keys are the first distinct values -/

theorem foldl_mapInsert_eq (vals keys : List Scalar) :
    vals.foldl mapInsert keys
      = keys ++ (firstOccurrences vals).filter (fun y => decide (y ∉ keys)) := by
  induction vals generalizing keys with
  | nil => simp [firstOccurrences]
  | cons x xs ih =>
    rw [List.foldl_cons, ih]
    by_cases hx : x ∈ keys
    · have h1 : mapInsert keys x = keys := by simp [mapInsert, hx]
      rw [h1]
      congr 1
      simp only [firstOccurrences, List.filter_cons, hx, not_true_eq_false, decide_False,
        Bool.false_eq_true, if_false, List.filter_filter]
      apply List.filter_congr
      intro y _
      by_cases hy : y ∈ keys
      · simp [hy]
      · have hyx : y ≠ x := fun e => hy (e ▸ hx)
        simp [hy, hyx]
    · have h1 : mapInsert keys x = keys ++ [x] := by simp [mapInsert, hx]
      rw [h1]
      simp only [firstOccurrences, List.filter_cons, hx, not_false_eq_true, decide_True,
        if_true, List.filter_filter, List.append_assoc, List.singleton_append]
      congr 2
      apply List.filter_congr
      intro y _
      by_cases hy : y ∈ keys
      · simp [hy]
      · by_cases hyx : y = x
        · simp [hyx]
        · simp [hy, hyx]

theorem foldl_mapInsert_nil (vals : List Scalar) :
    vals.foldl mapInsert [] = firstOccurrences vals := by
  rw [foldl_mapInsert_eq]
  simp

theorem firstOccurrences_nodup (vals : List Scalar) : (firstOccurrences vals).Nodup := by
  rw [← foldl_mapInsert_nil]
  exact foldl_mapInsert_nodup vals [] List.nodup_nil

theorem mem_firstOccurrences (vals : List Scalar) (x : Scalar) :
    x ∈ firstOccurrences vals ↔ x ∈ vals := by
  rw [← foldl_mapInsert_nil, mem_foldl_mapInsert]
  simp

theorem length_firstOccurrences (vals : List Scalar) :
    (firstOccurrences vals).length = vals.dedup.length := by
  rw [← foldl_mapInsert_nil, length_foldl_mapInsert]

theorem storedKeys_pos (limit : Int) (hlim : 0 < limit) (getf : StatementSelector)
    (l : List Statement) :
    storedKeys limit getf l = (firstOccurrences (l.map getf)).take limit.toNat := by
  have h0 : ¬ limit = 0 := by omega
  simp only [storedKeys, h0, if_false, foldl_mapInsert_nil]

/-- The reductions MIN and MAX on a stored set of `int64` keys that is not empty. -/
theorem minmax_on_keys (it : MapRange) (keys : List Scalar)
    (hall : ∀ x ∈ keys, ∃ t, x = Scalar.int64 t) (hne : keys ≠ []) :
    (∃ m, minFunctionSelector ((it.order keys).map Value.scalar)
          = some [Value.scalar (Scalar.int64 m)] ∧
        Scalar.int64 m ∈ keys ∧ ∀ t, Scalar.int64 t ∈ keys → m ≤ t) ∧
      ∃ m, maxFunctionSelector ((it.order keys).map Value.scalar)
          = some [Value.scalar (Scalar.int64 m)] ∧
        Scalar.int64 m ∈ keys ∧ ∀ t, Scalar.int64 t ∈ keys → t ≤ m := by
  obtain ⟨ts, hts⟩ := exists_int64_list (it.order keys)
    (fun x hx => hall x ((it.perm keys).mem_iff.mp hx))
  have hmem : ∀ t, t ∈ ts ↔ Scalar.int64 t ∈ keys := by
    intro t
    rw [← (it.perm keys).mem_iff, hts]
    simp
  have htsne : ts ≠ [] := by
    intro e
    rw [e] at hts
    have h1 : it.order keys = [] := by simpa using hts
    have h2 := (it.perm keys).length_eq
    rw [h1] at h2
    exact hne (List.length_eq_zero.mp h2.symm)
  have hmap : (it.order keys).map Value.scalar
      = ts.map (fun t => Value.scalar (Scalar.int64 t)) := by
    rw [hts, List.map_map]
    rfl
  rw [hmap]
  constructor
  · obtain ⟨r, hr, hin, hle⟩ := minFunctionSelector_int64 ts htsne
    exact ⟨r, hr, (hmem r).mp hin, fun t ht => hle t ((hmem t).mpr ht)⟩
  · obtain ⟨r, hr, hin, hle⟩ := maxFunctionSelector_int64 ts htsne
    exact ⟨r, hr, (hmem r).mp hin, fun t ht => hle t ((hmem t).mpr ht)⟩

/-! ## The split of a handle -/

theorem lastIndexSlash_eq_none (l : List UInt8) : lastIndexSlash l = none ↔ (47 : UInt8) ∉ l := by
  induction l with
  | nil => simp [lastIndexSlash]
  | cons b rest ih =>
    cases hr : lastIndexSlash rest with
    | some i =>
      have h1 : ¬ (47 : UInt8) ∉ rest := fun h => by
        rw [ih.mpr h] at hr
        cases hr
      have h2 : (47 : UInt8) ∈ rest := by
        by_contra h
        exact h1 h
      simp [lastIndexSlash, hr, h2]
    | none =>
      have h1 := ih.mp hr
      by_cases hb : b = 47
      · simp [lastIndexSlash, hr, hb]
      · have hb2 : ¬ (47 : UInt8) = b := fun e => hb e.symm
        simp [lastIndexSlash, hr, hb, hb2, h1]

theorem lastIndexSlash_append (a b : List UInt8) (hb : (47 : UInt8) ∉ b) :
    lastIndexSlash (a ++ 47 :: b) = some a.length := by
  induction a with
  | nil => simp [lastIndexSlash, (lastIndexSlash_eq_none b).mpr hb]
  | cons x rest ih => simp [lastIndexSlash, ih]

theorem lastIndexSlash_eq_some (l : List UInt8) (i : Nat) (h : lastIndexSlash l = some i) :
    ∃ a b, l = a ++ 47 :: b ∧ (47 : UInt8) ∉ b ∧ i = a.length := by
  induction l generalizing i with
  | nil => simp [lastIndexSlash] at h
  | cons x rest ih =>
    cases hr : lastIndexSlash rest with
    | some j =>
      obtain ⟨a, b, hab, hb, hj⟩ := ih j hr
      simp only [lastIndexSlash, hr, Option.some.injEq] at h
      exact ⟨x :: a, b, by simp [hab], hb, by simp [← h, hj]⟩
    | none =>
      simp only [lastIndexSlash, hr] at h
      by_cases hx : x = 47
      · simp only [hx, if_true, Option.some.injEq] at h
        exact ⟨[], rest, by simp [hx], (lastIndexSlash_eq_none rest).mp hr, by simp [← h]⟩
      · simp [hx] at h

theorem takeWhile_append_stop (p : UInt8 → Bool) (l r : List UInt8) (x : UInt8)
    (hl : ∀ y ∈ l, p y = true) (hx : p x = false) :
    (l ++ x :: r).takeWhile p = l := by
  induction l with
  | nil => simp [List.takeWhile, hx]
  | cons y rest ih =>
    have hy := hl y (List.mem_cons_self _ _)
    rw [List.cons_append, List.takeWhile_cons, hy, if_pos rfl,
      ih (fun z hz => hl z (List.mem_cons_of_mem _ hz))]

theorem lastComponent_append (a b : List UInt8) (hb : (47 : UInt8) ∉ b) :
    lastComponent (a ++ 47 :: b) = b := by
  unfold lastComponent
  have hrev : (a ++ 47 :: b).reverse = b.reverse ++ 47 :: a.reverse := by simp
  rw [hrev, takeWhile_append_stop _ _ _ _ _ (by simp)]
  · simp
  · intro y hy
    have hy2 : y ∈ b := List.mem_reverse.mp hy
    have hne : y ≠ 47 := fun e => hb (e ▸ hy2)
    simp [hne]

/-- The outcome of `ParseHandle` on a handle that ends with a `'/'` and an id without
`'/'`. -/
theorem ParseHandle_split {E I A : Type} (IDB58Decode : List UInt8 → Except E I)
    (NewMultiaddr : List UInt8 → Except E A) (a id addr : List UInt8)
    (hid : (47 : UInt8) ∉ id)
    (haddr : (match lastIndexSlash a with
      | none => a
      | some iy => if a.drop (iy + 1) = goBytes "p2p" then a.take iy else a) = addr) :
    ParseHandle IDB58Decode NewMultiaddr (a ++ 47 :: id)
      = peerInfoOf IDB58Decode NewMultiaddr addr id := by
  have h1 : (a ++ 47 :: id).take a.length = a := by simp
  have h2 : (a ++ 47 :: id).drop (a.length + 1) = id := by
    rw [← List.drop_drop]
    simp
  have h3 : ∀ iy, lastIndexSlash a = some iy → (a ++ 47 :: id).take iy = a.take iy := by
    intro iy hiy
    obtain ⟨a1, b1, hab, _, hi⟩ := lastIndexSlash_eq_some a iy hiy
    subst hab
    subst hi
    simp
  simp only [ParseHandle, lastIndexSlash_append a id hid, h1, h2]
  cases hla : lastIndexSlash a with
  | none =>
    simp only [hla] at haddr
    simp only [haddr]
    cases hdec : IDB58Decode id with
    | error err => simp [peerInfoOf, hdec]
    | ok pid =>
      cases addr with
      | nil => simp [peerInfoOf, hdec]
      | cons b rest => simp only [peerInfoOf, hdec, reduceCtorEq, if_false]
  | some iy =>
    simp only [hla] at haddr
    simp only [h3 iy hla, haddr]
    cases hdec : IDB58Decode id with
    | error err => simp [peerInfoOf, hdec]
    | ok pid =>
      cases addr with
      | nil => simp [peerInfoOf, hdec]
      | cons b rest => simp only [peerInfoOf, hdec, reduceCtorEq, if_false]

/-! ## Claims -/

/-- C1: when the selector is a compound selector whose names all resolve (the empty list
included), then for every limit and every record sequence `EvalQuery` returns one
composite record per accepted record (accepted by the namespace and the criteria
predicate), in input order; each composite record maps exactly the listed names, each to
the value of its selector on that record; the limit is not applied, the output has as
many elements as there are accepted records. -/
theorem EvalQuery_compound_list (it : MapRange) (query : Query) (names : List SimpleSelector)
    (stmts : List Statement) (nsfilter cfilter : StatementFilter)
    (hsel : query.selector = .CompoundSelector names)
    (hres : ∀ n ∈ names, (simpleSelectors.lookup n).isSome = true)
    (hns : makeNamespaceFilter query = some nsfilter)
    (hc : makeCriteriaFilter query = .ok cfilter) :
    ∃ record : Statement → List (String × Scalar),
      EvalQuery it query stmts
        = .ok ((accepted nsfilter cfilter stmts).map (fun stmt => Value.obj (record stmt))) ∧
      ((accepted nsfilter cfilter stmts).map (fun stmt => Value.obj (record stmt))).length
        = (accepted nsfilter cfilter stmts).length ∧
      ∀ stmt name, (record stmt).lookup name
        = if name ∈ names then (simpleSelectors.lookup name).map (fun getf => getf stmt)
          else none := by
  obtain ⟨getfs, hok, hall⟩ := compoundGetfs_ok names hres
  refine ⟨fun stmt => compoundFill stmt [] names getfs, ?_, by simp, ?_⟩
  · simp only [EvalQuery, hns, hc, makeResultSet, hsel, hok, QueryResultSet.begin,
      CompoundResultSet.begin, scan_eq_foldl, foldl_add_compound, QueryResultSet.end_,
      CompoundResultSet.end_, QueryResultSet.result, CompoundResultSet.result,
      makeCompoundResultSet, List.nil_append]
    rfl
  · intro stmt name
    rw [lookup_compoundFill stmt names getfs hall]
    simp

theorem EvalQuery_compound_list_witness :
    ∃ record : Statement → List (String × Scalar),
      EvalQuery .insertion ⟨"*", .CompoundSelector ["namespace"], none, 1⟩ exampleStmts
        = .ok ((accepted emptyFilter emptyFilter exampleStmts).map
            (fun stmt => Value.obj (record stmt))) ∧
      ((accepted emptyFilter emptyFilter exampleStmts).map
            (fun stmt => Value.obj (record stmt))).length
        = (accepted emptyFilter emptyFilter exampleStmts).length ∧
      ∀ stmt name, (record stmt).lookup name
        = if name ∈ ["namespace"] then
            (simpleSelectors.lookup name).map (fun getf => getf stmt)
          else none :=
  EvalQuery_compound_list .insertion ⟨"*", .CompoundSelector ["namespace"], none, 1⟩
    ["namespace"] exampleStmts emptyFilter emptyFilter rfl (by decide) rfl rfl

/-- C2: when the selector is a simple selector whose name resolves and the limit is 0,
then for every record sequence the sequence that `EvalQuery` returns has no duplicate,
its elements are exactly the selected values of the accepted records, and so it has as
many elements as there are distinct selected values (2 for namespaces a, a, b). -/
theorem EvalQuery_simple_set (it : MapRange) (query : Query) (name : SimpleSelector)
    (getf : StatementSelector) (stmts : List Statement) (nsfilter cfilter : StatementFilter)
    (hsel : query.selector = .SimpleSelector name)
    (hget : simpleSelectors.lookup name = some getf)
    (hlim : query.limit = 0)
    (hns : makeNamespaceFilter query = some nsfilter)
    (hc : makeCriteriaFilter query = .ok cfilter) :
    ∃ out, EvalQuery it query stmts = .ok out ∧ out.Nodup ∧
      (∀ v, v ∈ out ↔ ∃ stmt ∈ accepted nsfilter cfilter stmts, v = Value.scalar (getf stmt)) ∧
      out.length = ((accepted nsfilter cfilter stmts).map getf).dedup.length := by
  refine ⟨_, EvalQuery_simple_eq it query name getf stmts nsfilter cfilter hsel hget
    (le_of_eq hlim.symm) hns hc, ?_, ?_, ?_⟩
  · exact List.Nodup.map scalar_injective
      ((it.perm _).nodup_iff.mpr (storedKeys_nodup _ _ _))
  rotate_left
  · rw [List.length_map, (it.perm _).length_eq, hlim, length_storedKeys_zero]
  · intro v
    rw [hlim]
    simp only [List.mem_map, (it.perm _).mem_iff, mem_storedKeys_zero]
    constructor
    · rintro ⟨x, ⟨s, hs, rfl⟩, rfl⟩
      exact ⟨s, hs, rfl⟩
    · rintro ⟨s, hs, rfl⟩
      exact ⟨getf s, ⟨s, hs, rfl⟩, rfl⟩

/-- The example of C2: namespaces a, a, b and the selector namespace. -/
theorem EvalQuery_simple_set_witness :
    ∃ out, EvalQuery .reversed ⟨"*", .SimpleSelector "namespace", none, 0⟩ exampleStmts = .ok out ∧
      out.Nodup ∧
      (∀ v, v ∈ out ↔ ∃ stmt ∈ accepted emptyFilter emptyFilter exampleStmts,
        v = Value.scalar (simpleSelectorNamespace stmt)) ∧
      out.length = ((accepted emptyFilter emptyFilter exampleStmts).map
        simpleSelectorNamespace).dedup.length :=
  EvalQuery_simple_set .reversed ⟨"*", .SimpleSelector "namespace", none, 0⟩ "namespace"
    simpleSelectorNamespace exampleStmts emptyFilter emptyFilter rfl rfl rfl rfl rfl

/-- C3: when the selector is a simple selector whose name resolves and the limit L is
positive, then for every record sequence the number of elements that `EvalQuery` returns
is min(L, d), d being the number of distinct selected values among the accepted records:
the limit bounds the size of the output set, not the number of records scanned. -/
theorem EvalQuery_simple_limit (it : MapRange) (query : Query) (name : SimpleSelector)
    (getf : StatementSelector) (stmts : List Statement) (nsfilter cfilter : StatementFilter)
    (hsel : query.selector = .SimpleSelector name)
    (hget : simpleSelectors.lookup name = some getf)
    (hlim : 0 < query.limit)
    (hns : makeNamespaceFilter query = some nsfilter)
    (hc : makeCriteriaFilter query = .ok cfilter) :
    ∃ out, EvalQuery it query stmts = .ok out ∧
      (out.length : Int)
        = min query.limit (((accepted nsfilter cfilter stmts).map getf).dedup.length : Int) := by
  refine ⟨_, EvalQuery_simple_eq it query name getf stmts nsfilter cfilter hsel hget
    (le_of_lt hlim) hns hc, ?_⟩
  rw [List.length_map, (it.perm _).length_eq, length_storedKeys_pos _ hlim]
  have h := Int.toNat_of_nonneg (le_of_lt hlim)
  omega

theorem EvalQuery_simple_limit_witness :
    ∃ out, EvalQuery .insertion ⟨"*", .SimpleSelector "id", none, 1⟩ exampleStmts = .ok out ∧
      (out.length : Int)
        = min 1 (((accepted emptyFilter emptyFilter exampleStmts).map
            simpleSelectorId).dedup.length : Int) :=
  EvalQuery_simple_limit .insertion ⟨"*", .SimpleSelector "id", none, 1⟩ "id"
    simpleSelectorId exampleStmts emptyFilter emptyFilter rfl rfl (by decide) rfl rfl

/-- C4: when the selector is COUNT over a name that resolves and the limit is 0, then for
every record sequence `EvalQuery` returns a sequence of exactly one element, the number
of distinct values of that selector among the accepted records (a Go `int`). -/
theorem EvalQuery_count_distinct (it : MapRange) (query : Query) (name : SimpleSelector)
    (getf : StatementSelector) (stmts : List Statement) (nsfilter cfilter : StatementFilter)
    (hsel : query.selector = .FunctionSelector "COUNT" name)
    (hget : simpleSelectors.lookup name = some getf)
    (hlim : query.limit = 0)
    (hns : makeNamespaceFilter query = some nsfilter)
    (hc : makeCriteriaFilter query = .ok cfilter) :
    EvalQuery it query stmts
      = .ok [Value.scalar
          (Scalar.int (((accepted nsfilter cfilter stmts).map getf).dedup.length : Int))] := by
  have hcheck : checkFunctionSelector "COUNT" name = true :=
    checkFunctionSelector_COUNT name (by simp [hget])
  rw [EvalQuery_function_eq it query "COUNT" name countFunctionSelector getf stmts nsfilter
    cfilter hsel hcheck rfl hget hns hc, hlim, foldl_add_make _ _ _ (le_refl 0)]
  simp only [countFunctionSelector, List.length_map, (it.perm _).length_eq,
    length_storedKeys_zero]

/-- Three records with two distinct namespaces are counted as 2. -/
theorem EvalQuery_count_distinct_witness :
    EvalQuery .insertion ⟨"*", .FunctionSelector "COUNT" "namespace", none, 0⟩ exampleStmts
      = .ok [Value.scalar (Scalar.int (((accepted emptyFilter emptyFilter exampleStmts).map
          simpleSelectorNamespace).dedup.length : Int))] :=
  EvalQuery_count_distinct .insertion ⟨"*", .FunctionSelector "COUNT" "namespace", none, 0⟩
    "namespace" simpleSelectorNamespace exampleStmts emptyFilter emptyFilter rfl rfl rfl rfl rfl

/-- C5: when the selector is MIN (respectively MAX) over timestamp, the limit is 0 and at
least one record is accepted, `EvalQuery` returns a sequence of one element, an `int64`
that is the timestamp of some accepted record and is at most (respectively at least) the
timestamp of every accepted record. -/
theorem EvalQuery_minmax_timestamp (it : MapRange) (query : Query) (op : String)
    (stmts : List Statement) (nsfilter cfilter : StatementFilter)
    (hop : op = "MIN" ∨ op = "MAX")
    (hsel : query.selector = .FunctionSelector op "timestamp")
    (hlim : query.limit = 0)
    (hns : makeNamespaceFilter query = some nsfilter)
    (hc : makeCriteriaFilter query = .ok cfilter)
    (hne : accepted nsfilter cfilter stmts ≠ []) :
    ∃ m : Int, EvalQuery it query stmts = .ok [Value.scalar (Scalar.int64 m)] ∧
      (∃ stmt ∈ accepted nsfilter cfilter stmts, stmt.Timestamp = m) ∧
      ∀ stmt ∈ accepted nsfilter cfilter stmts,
        if op = "MIN" then m ≤ stmt.Timestamp else stmt.Timestamp ≤ m := by
  obtain ⟨ts, hts, hmem⟩ := timestamp_keys it (accepted nsfilter cfilter stmts)
  have htsne : ts ≠ [] := by
    obtain ⟨s, hs⟩ := List.exists_mem_of_ne_nil _ hne
    exact List.ne_nil_of_mem ((hmem s.Timestamp).mpr ⟨s, hs, rfl⟩)
  rcases hop with h | h
  · subst h
    obtain ⟨r, hr, hin, hall⟩ := minFunctionSelector_int64 ts htsne
    refine ⟨r, ?_, (hmem r).mp hin, ?_⟩
    · rw [EvalQuery_function_eq it query "MIN" "timestamp" minFunctionSelector
        simpleSelectorTimestamp stmts nsfilter cfilter hsel rfl rfl rfl hns hc, hlim, hts, hr]
    · intro s hs
      rw [if_pos rfl]
      exact hall _ ((hmem s.Timestamp).mpr ⟨s, hs, rfl⟩)
  · subst h
    obtain ⟨r, hr, hin, hall⟩ := maxFunctionSelector_int64 ts htsne
    refine ⟨r, ?_, (hmem r).mp hin, ?_⟩
    · rw [EvalQuery_function_eq it query "MAX" "timestamp" maxFunctionSelector
        simpleSelectorTimestamp stmts nsfilter cfilter hsel rfl rfl rfl hns hc, hlim, hts, hr]
    · intro s hs
      rw [if_neg (by decide)]
      exact hall _ ((hmem s.Timestamp).mpr ⟨s, hs, rfl⟩)

theorem EvalQuery_minmax_timestamp_witness :
    ∃ m : Int,
      EvalQuery .reversed ⟨"a", .FunctionSelector "MIN" "timestamp", none, 0⟩ exampleStmts
        = .ok [Value.scalar (Scalar.int64 m)] ∧
      (∃ stmt ∈ accepted (fun stmt => decide (stmt.Namespace = "a")) emptyFilter exampleStmts,
        stmt.Timestamp = m) ∧
      ∀ stmt ∈ accepted (fun stmt => decide (stmt.Namespace = "a")) emptyFilter exampleStmts,
        if "MIN" = "MIN" then m ≤ stmt.Timestamp else stmt.Timestamp ≤ m :=
  EvalQuery_minmax_timestamp .reversed ⟨"a", .FunctionSelector "MIN" "timestamp", none, 0⟩
    "MIN" exampleStmts (fun stmt => decide (stmt.Namespace = "a")) emptyFilter
    (Or.inl rfl) rfl rfl rfl rfl (by decide)

/-- C6 (the code at the failing input): MIN over counter with one accepted record. The
set holds the `int` that `simpleSelectorCounter` returns, the assertion `.(int64)` of
`minFunctionSelector` fails and `EvalQuery` panics instead of returning `[0]`, whatever
the iteration order of the map. -/
theorem EvalQuery_min_counter_panics (it : MapRange) :
    EvalQuery it ⟨"*", .FunctionSelector "MIN" "counter", none, 0⟩
      [⟨1, "id1", "pubA", "a", 11, 100, []⟩] = .panic := by
  rw [EvalQuery_function_eq it ⟨"*", .FunctionSelector "MIN" "counter", none, 0⟩ "MIN" "counter"
    minFunctionSelector simpleSelectorCounter _ emptyFilter emptyFilter rfl rfl rfl rfl rfl rfl]
  have hkeys : (List.foldl SimpleResultSet.add (makeSimpleResultSet simpleSelectorCounter 0)
      (accepted emptyFilter emptyFilter [⟨1, "id1", "pubA", "a", 11, 100, []⟩])).rset
      = [Scalar.int 0] := by decide
  rw [hkeys, List.perm_singleton.mp (it.perm [Scalar.int 0])]
  rfl

/-- C7: when the selector is MIN or MAX over timestamp or counter and no record of the
sequence passes both filters (the empty sequence included), `EvalQuery` returns the
one-element sequence `[0]` (the Go `int` 0), for every limit. -/
theorem EvalQuery_minmax_empty (it : MapRange) (query : Query) (op : String)
    (name : SimpleSelector) (stmts : List Statement) (nsfilter cfilter : StatementFilter)
    (hop : op = "MIN" ∨ op = "MAX")
    (hname : name = "timestamp" ∨ name = "counter")
    (hsel : query.selector = .FunctionSelector op name)
    (hns : makeNamespaceFilter query = some nsfilter)
    (hc : makeCriteriaFilter query = .ok cfilter)
    (hnone : ∀ stmt ∈ stmts, (nsfilter stmt && cfilter stmt) = false) :
    EvalQuery it query stmts = .ok [Value.scalar (Scalar.int 0)] := by
  have hacc : accepted nsfilter cfilter stmts = [] := by
    unfold accepted
    rw [List.filter_eq_nil_iff]
    intro s hs
    simp [hnone s hs]
  have hnil : it.order [] = [] := List.Perm.eq_nil (it.perm [])
  rcases hop with h | h <;> rcases hname with h2 | h2 <;> subst h <;> subst h2
  · rw [EvalQuery_function_eq it query "MIN" "timestamp" minFunctionSelector
      simpleSelectorTimestamp stmts nsfilter cfilter hsel rfl rfl rfl hns hc, hacc]
    simp only [List.foldl_nil, makeSimpleResultSet, hnil, List.map_nil, minFunctionSelector]
  · rw [EvalQuery_function_eq it query "MIN" "counter" minFunctionSelector
      simpleSelectorCounter stmts nsfilter cfilter hsel rfl rfl rfl hns hc, hacc]
    simp only [List.foldl_nil, makeSimpleResultSet, hnil, List.map_nil, minFunctionSelector]
  · rw [EvalQuery_function_eq it query "MAX" "timestamp" maxFunctionSelector
      simpleSelectorTimestamp stmts nsfilter cfilter hsel rfl rfl rfl hns hc, hacc]
    simp only [List.foldl_nil, makeSimpleResultSet, hnil, List.map_nil, maxFunctionSelector]
  · rw [EvalQuery_function_eq it query "MAX" "counter" maxFunctionSelector
      simpleSelectorCounter stmts nsfilter cfilter hsel rfl rfl rfl hns hc, hacc]
    simp only [List.foldl_nil, makeSimpleResultSet, hnil, List.map_nil, maxFunctionSelector]

theorem EvalQuery_minmax_empty_witness :
    EvalQuery .insertion ⟨"c", .FunctionSelector "MAX" "counter", none, 3⟩ exampleStmts
      = .ok [Value.scalar (Scalar.int 0)] :=
  EvalQuery_minmax_empty .insertion ⟨"c", .FunctionSelector "MAX" "counter", none, 3⟩
    "MAX" "counter" exampleStmts (fun stmt => decide (stmt.Namespace = "c")) emptyFilter
    (Or.inr rfl) (Or.inr rfl) rfl rfl rfl (by decide)

/-- C8: for a function selector, `makeResultSet` succeeds exactly when the pair is legal
(COUNT over one of the eight selector names, MIN or MAX over timestamp or counter); in
every other case, an unknown function included, it returns the error
`Illegal selector: op(name)`, a message that starts with `Illegal selector`. -/
theorem makeResultSet_function_legal (ns : String) (criteria : Option QueryCriteria)
    (limit : Int) (op : String) (name : SimpleSelector) :
    (legalFunctionSelector op name = true ∧
        ∃ rs, makeResultSet ⟨ns, .FunctionSelector op name, criteria, limit⟩ = .ok rs) ∨
      (legalFunctionSelector op name = false ∧
        makeResultSet ⟨ns, .FunctionSelector op name, criteria, limit⟩
          = .error ("Illegal selector: " ++ op ++ "(" ++ name ++ ")") ∧
        ∃ rest, "Illegal selector: " ++ op ++ "(" ++ name ++ ")" = "Illegal selector" ++ rest) := by
  cases hl : legalFunctionSelector op name with
  | true =>
    left
    have hcheck : checkFunctionSelector op name = true := by
      rw [checkFunctionSelector_eq_legal, hl]
    obtain ⟨⟨fun_, hfun⟩, ⟨getf, hget⟩⟩ := lookups_of_checkFunctionSelector op name hcheck
    exact ⟨rfl, .function (makeFunctionResultSet fun_ getf limit),
      by simp [makeResultSet, hcheck, hfun, hget]⟩
  | false =>
    right
    have hcheck : checkFunctionSelector op name = false := by
      rw [checkFunctionSelector_eq_legal, hl]
    refine ⟨rfl, by simp [makeResultSet, hcheck], ": " ++ op ++ "(" ++ name ++ ")", ?_⟩
    have hlit : "Illegal selector: " = "Illegal selector" ++ ": " := by decide
    rw [hlit]
    simp only [String.append_assoc]

/-- C9 (the code at a failing input): the namespace pattern is not empty, the criteria
and the selector MAX over counter compile, and yet `EvalQuery` panics after the scan, at
the assertion `.(int64)` of `maxFunctionSelector`, whatever the iteration order of the
map. -/
theorem EvalQuery_compiled_panics :
    (⟨"a", .FunctionSelector "MAX" "counter",
        some (.ValueCriteria "=" "publisher" "pubA"), 0⟩ : Query).namespace_ ≠ "" ∧
      (∃ cfilter, makeCriteriaFilter ⟨"a", .FunctionSelector "MAX" "counter",
        some (.ValueCriteria "=" "publisher" "pubA"), 0⟩ = .ok cfilter) ∧
      (∃ rs, makeResultSet ⟨"a", .FunctionSelector "MAX" "counter",
        some (.ValueCriteria "=" "publisher" "pubA"), 0⟩ = .ok rs) ∧
      ∀ it : MapRange, EvalQuery it ⟨"a", .FunctionSelector "MAX" "counter",
        some (.ValueCriteria "=" "publisher" "pubA"), 0⟩ exampleStmts = .panic := by
  refine ⟨by decide, ⟨_, rfl⟩, ⟨_, rfl⟩, ?_⟩
  intro it
  rw [EvalQuery_function_eq it ⟨"a", .FunctionSelector "MAX" "counter",
    some (.ValueCriteria "=" "publisher" "pubA"), 0⟩ "MAX" "counter" maxFunctionSelector
    simpleSelectorCounter exampleStmts (fun stmt => decide (stmt.Namespace = "a"))
    (fun stmt => valueCriteriaEQ (publisherCriteriaFilter stmt) "pubA") rfl rfl rfl rfl rfl rfl]
  have hkeys : (List.foldl SimpleResultSet.add (makeSimpleResultSet simpleSelectorCounter 0)
      (accepted (fun stmt => decide (stmt.Namespace = "a"))
        (fun stmt => valueCriteriaEQ (publisherCriteriaFilter stmt) "pubA") exampleStmts)).rset
      = [Scalar.int 0] := by decide
  rw [hkeys, List.perm_singleton.mp (it.perm [Scalar.int 0])]
  rfl

/-- C10: for every criteria tree, either every node is well-formed and
`makeCriteriaFilterF` returns a predicate, or some node is not and it returns a
`QueryEvalError` (and no predicate). -/
theorem makeCriteriaFilterF_wellFormed (c : QueryCriteria) :
    (wellFormedCriteria c = true ∧ ∃ filter, makeCriteriaFilterF c = .ok filter) ∨
      (wellFormedCriteria c = false ∧ ∃ err, makeCriteriaFilterF c = .error err) := by
  induction c with
  | ValueCriteria op sel val =>
    simp only [makeCriteriaFilterF, wellFormedCriteria, valueCriteriaFilterSelect,
      valueCriteriaFilterCompare, lookup_cons_ite, List.lookup_nil]
    split_ifs <;> simp_all
  | RangeCriteria op sel val =>
    simp only [makeCriteriaFilterF, wellFormedCriteria, rangeCriteriaFilterSelect,
      rangeCriteriaFilterCompare, lookup_cons_ite, List.lookup_nil]
    split_ifs <;> simp_all
  | IndexCriteria sel val =>
    simp only [makeCriteriaFilterF, wellFormedCriteria, indexCriteriaFilterSelect,
      lookup_cons_ite, List.lookup_nil]
    split_ifs <;> simp_all
  | CompoundCriteria op left right ihl ihr =>
    simp only [makeCriteriaFilterF, wellFormedCriteria, compoundCriteriaFilters,
      lookup_cons_ite, List.lookup_nil]
    rcases ihl with ⟨hl, fl, hfl⟩ | ⟨hl, el, hel⟩ <;>
      rcases ihr with ⟨hr, fr, hfr⟩ | ⟨hr, er, her⟩ <;>
      split_ifs <;> simp_all
  | NegatedCriteria e ih =>
    simp only [makeCriteriaFilterF, wellFormedCriteria]
    rcases ih with ⟨h, f, hf⟩ | ⟨h, err, herr⟩ <;> simp_all
  | other typ =>
    right
    exact ⟨rfl, _, rfl⟩

/-- C11: when the criteria of a query is absent or a well-formed tree, the predicate that
`makeCriteriaFilter` compiles returns on every record the truth value of the criteria
defined by structural recursion (`queryCriteriaHolds`; an absent criteria accepts every
record). In particular the predicate compiled from NOT(publisher = X) AND
(timestamp >= 100) accepts a record exactly when its publisher is not X and its timestamp
is at least 100. -/
theorem makeCriteriaFilter_holds (query : Query)
    (hwf : ∀ c, query.criteria = some c → wellFormedCriteria c = true) :
    (∃ filter, makeCriteriaFilter query = .ok filter ∧
        ∀ s, filter s = queryCriteriaHolds query.criteria s) ∧
      ∀ X : String, ∃ filter,
        makeCriteriaFilterF (.CompoundCriteria "AND"
          (.NegatedCriteria (.ValueCriteria "=" "publisher" X))
          (.RangeCriteria ">=" "timestamp" 100)) = .ok filter ∧
        ∀ s, filter s = true ↔ s.Publisher ≠ X ∧ 100 ≤ s.Timestamp := by
  constructor
  · cases hcr : query.criteria with
    | none => exact ⟨emptyFilter, by simp [makeCriteriaFilter, hcr], fun s => rfl⟩
    | some c =>
      obtain ⟨f, hf, hs⟩ := makeCriteriaFilterF_holds c (hwf c hcr)
      exact ⟨f, by simp [makeCriteriaFilter, hcr, hf], fun s => by
        simp [queryCriteriaHolds, hs]⟩
  · intro X
    obtain ⟨f, hf, hs⟩ := makeCriteriaFilterF_holds (.CompoundCriteria "AND"
      (.NegatedCriteria (.ValueCriteria "=" "publisher" X))
      (.RangeCriteria ">=" "timestamp" 100)) (by simp [wellFormedCriteria])
    refine ⟨f, hf, fun s => ?_⟩
    rw [hs]
    simp [criteriaHolds]

theorem makeCriteriaFilter_holds_witness :
    (∃ filter, makeCriteriaFilter ⟨"*", .SimpleSelector "id",
          some (.CompoundCriteria "OR" (.IndexCriteria "wki" "w1")
            (.RangeCriteria "<" "timestamp" 60)), 0⟩ = .ok filter ∧
        ∀ s, filter s = queryCriteriaHolds
          (some (.CompoundCriteria "OR" (.IndexCriteria "wki" "w1")
            (.RangeCriteria "<" "timestamp" 60))) s) ∧
      ∀ X : String, ∃ filter,
        makeCriteriaFilterF (.CompoundCriteria "AND"
          (.NegatedCriteria (.ValueCriteria "=" "publisher" X))
          (.RangeCriteria ">=" "timestamp" 100)) = .ok filter ∧
        ∀ s, filter s = true ↔ s.Publisher ≠ X ∧ 100 ≤ s.Timestamp :=
  makeCriteriaFilter_holds ⟨"*", .SimpleSelector "id",
    some (.CompoundCriteria "OR" (.IndexCriteria "wki" "w1")
      (.RangeCriteria "<" "timestamp" 60)), 0⟩
    (fun c hc => by
      cases hc
      decide)

/-- C12: for every namespace pattern other than `*` whose last character is `'*'`, the
predicate that `makeNamespaceFilter` builds accepts a record exactly when the bytes of
its namespace start with the bytes of the pattern less the last two. So the pattern
`ns/*` accepts the namespaces `ns/foo` and `ns`, the accepted prefix of `a/*` is `a`, and
the pattern `x*` has the empty prefix and accepts every record. -/
theorem makeNamespaceFilter_prefix_match (query : Query)
    (hstar : query.namespace_ ≠ "*")
    (hlast : query.namespace_.data.getLast? = some '*') :
    (∃ nsfilter, makeNamespaceFilter query = some nsfilter ∧
        ∀ s, nsfilter s = true ↔
          List.IsPrefix (namespacePrefix query.namespace_) (goBytes s.Namespace)) ∧
      (∀ sel criteria limit, ∃ nsfilter,
        makeNamespaceFilter ⟨"ns/*", sel, criteria, limit⟩ = some nsfilter ∧
        ∀ s, s.Namespace = "ns/foo" ∨ s.Namespace = "ns" → nsfilter s = true) ∧
      namespacePrefix "a/*" = goBytes "a" ∧
      namespacePrefix "x*" = [] ∧
      ∀ sel criteria limit, ∃ nsfilter,
        makeNamespaceFilter ⟨"x*", sel, criteria, limit⟩ = some nsfilter ∧
        ∀ s, nsfilter s = true := by
  refine ⟨⟨_, makeNamespaceFilter_wildcard query hstar hlast, fun s => ?_⟩, ?_, by decide,
    by decide, ?_⟩
  · exact List.isPrefixOf_iff_prefix
  · intro sel criteria limit
    have h1 : ("ns/*" : String) ≠ "*" := by decide
    have h2 : ("ns/*" : String).data.getLast? = some '*' := by decide
    refine ⟨_, makeNamespaceFilter_wildcard ⟨"ns/*", sel, criteria, limit⟩ h1 h2,
      fun s hs => ?_⟩
    rcases hs with h | h
    · simp only [h]
      decide
    · simp only [h]
      decide
  · intro sel criteria limit
    have h1 : ("x*" : String) ≠ "*" := by decide
    have h2 : ("x*" : String).data.getLast? = some '*' := by decide
    refine ⟨_, makeNamespaceFilter_wildcard ⟨"x*", sel, criteria, limit⟩ h1 h2, fun s => ?_⟩
    have h0 : namespacePrefix "x*" = [] := by decide
    simp only [h0]
    exact List.isPrefixOf_iff_prefix.mpr (List.nil_prefix)

theorem makeNamespaceFilter_prefix_match_witness :
    (∃ nsfilter, makeNamespaceFilter ⟨"a/*", .SimpleSelector "id", none, 0⟩ = some nsfilter ∧
        ∀ s, nsfilter s = true ↔
          List.IsPrefix (namespacePrefix "a/*") (goBytes s.Namespace)) ∧
      (∀ sel criteria limit, ∃ nsfilter,
        makeNamespaceFilter ⟨"ns/*", sel, criteria, limit⟩ = some nsfilter ∧
        ∀ s, s.Namespace = "ns/foo" ∨ s.Namespace = "ns" → nsfilter s = true) ∧
      namespacePrefix "a/*" = goBytes "a" ∧
      namespacePrefix "x*" = [] ∧
      ∀ sel criteria limit, ∃ nsfilter,
        makeNamespaceFilter ⟨"x*", sel, criteria, limit⟩ = some nsfilter ∧
        ∀ s, nsfilter s = true :=
  makeNamespaceFilter_prefix_match ⟨"a/*", .SimpleSelector "id", none, 0⟩ (by decide)
    (by decide)

/-- C13: for the pattern `*`, and for every non-empty pattern whose last character is not
`'*'`, `makeNamespaceFilter` builds a predicate; for `*` it accepts every record, for the
other patterns it accepts a record exactly when the namespace of the record is equal to
the pattern. -/
theorem makeNamespaceFilter_all_or_exact (query : Query)
    (h : query.namespace_ = "*" ∨
      (query.namespace_ ≠ "" ∧ query.namespace_.data.getLast? ≠ some '*')) :
    ∃ nsfilter, makeNamespaceFilter query = some nsfilter ∧
      ∀ s, nsfilter s = true ↔ (query.namespace_ = "*" ∨ s.Namespace = query.namespace_) := by
  rcases h with h | ⟨hne, hlast⟩
  · exact ⟨_, makeNamespaceFilter_all query h, fun s => by simp [emptyFilter, h]⟩
  · have hstar : query.namespace_ ≠ "*" := by
      intro e
      rw [e] at hlast
      exact hlast (by decide)
    exact ⟨_, makeNamespaceFilter_literal query hne hlast, fun s => by simp [hstar]⟩

theorem makeNamespaceFilter_all_or_exact_witness :
    ∃ nsfilter, makeNamespaceFilter ⟨"a", .SimpleSelector "id", none, 0⟩ = some nsfilter ∧
      ∀ s, nsfilter s = true ↔ (("a" : String) = "*" ∨ s.Namespace = "a") :=
  makeNamespaceFilter_all_or_exact ⟨"a", .SimpleSelector "id", none, 0⟩
    (Or.inr ⟨by decide, by decide⟩)

/-- C14 (counterexample): the pattern `a**` has a stray star before its trailing star, yet
the predicate accepts the namespace `abc`, which is not equal to the pattern: the pattern
is not matched exactly, it is a wildcard pattern with the prefix `a`. -/
theorem makeNamespaceFilter_multistar_counterexample :
    '*' ∈ ("a**" : String).data.dropLast ∧
      ∃ nsfilter, makeNamespaceFilter ⟨"a**", .SimpleSelector "id", none, 0⟩ = some nsfilter ∧
        nsfilter ⟨1, "id1", "pubA", "abc", 11, 100, []⟩ = true ∧
        (⟨1, "id1", "pubA", "abc", 11, 100, []⟩ : Statement).Namespace ≠ "a**" := by
  refine ⟨by decide, _, rfl, by decide, by decide⟩

/-- C14 (amended): for every pattern with a `'*'` before its last character, the predicate
is exact match against the whole pattern, the stray star included, when the pattern does
not end in `'*'` (an infix star, `a*b`); when it ends in `'*'` (`a**`, `a/*/*`) the
pattern is a wildcard pattern like any other and the predicate accepts the namespaces
whose bytes start with the bytes of the pattern less the last two. -/
theorem makeNamespaceFilter_stray_star (query : Query)
    (h : '*' ∈ query.namespace_.data.dropLast) :
    ∃ nsfilter, makeNamespaceFilter query = some nsfilter ∧
      ∀ s, nsfilter s = true ↔
        if query.namespace_.data.getLast? = some '*' then
          List.IsPrefix (namespacePrefix query.namespace_) (goBytes s.Namespace)
        else s.Namespace = query.namespace_ := by
  have hlen : 2 ≤ query.namespace_.data.length := by
    have h1 : 0 < query.namespace_.data.dropLast.length := List.length_pos_of_mem h
    simp only [List.length_dropLast] at h1
    omega
  have hne : query.namespace_ ≠ "" := by
    intro e
    rw [e] at hlen
    simp at hlen
  have hstar : query.namespace_ ≠ "*" := by
    intro e
    rw [e] at hlen
    simp at hlen
  by_cases hlast : query.namespace_.data.getLast? = some '*'
  · refine ⟨_, makeNamespaceFilter_wildcard query hstar hlast, fun s => ?_⟩
    rw [if_pos hlast]
    exact List.isPrefixOf_iff_prefix
  · refine ⟨_, makeNamespaceFilter_literal query hne hlast, fun s => ?_⟩
    rw [if_neg hlast]
    simp

theorem makeNamespaceFilter_stray_star_witness :
    ∃ nsfilter, makeNamespaceFilter ⟨"a*b", .SimpleSelector "id", none, 0⟩ = some nsfilter ∧
      ∀ s, nsfilter s = true ↔
        if ("a*b" : String).data.getLast? = some '*' then
          List.IsPrefix (namespacePrefix "a*b") (goBytes s.Namespace)
        else s.Namespace = "a*b" :=
  makeNamespaceFilter_stray_star ⟨"a*b", .SimpleSelector "id", none, 0⟩ (by decide)

/-- C16: for the operators `=` and `!=`, every literal and every record, the predicate
compiled from a value criteria over source returns the same value as the predicate
compiled from the value criteria over publisher with the same operator and literal. -/
theorem source_alias_publisher (op v : String) (hop : op = "=" ∨ op = "!=") :
    ∃ fsource fpublisher,
      makeCriteriaFilterF (.ValueCriteria op "source" v) = .ok fsource ∧
      makeCriteriaFilterF (.ValueCriteria op "publisher" v) = .ok fpublisher ∧
      ∀ s, fsource s = fpublisher s := by
  rcases hop with rfl | rfl
  · exact ⟨_, _, rfl, rfl, fun s => rfl⟩
  · exact ⟨_, _, rfl, rfl, fun s => rfl⟩

theorem source_alias_publisher_witness :
    ∃ fsource fpublisher,
      makeCriteriaFilterF (.ValueCriteria "!=" "source" "pubA") = .ok fsource ∧
      makeCriteriaFilterF (.ValueCriteria "!=" "publisher" "pubA") = .ok fpublisher ∧
      ∀ s, fsource s = fpublisher s :=
  source_alias_publisher "!=" "pubA" (Or.inr rfl)

/-- C19: `indexCriteriaContains keys val` is true exactly when `val` is an element of
`keys`; so the predicate compiled from an index criteria takes the same value on two
records whose reference lists are permutations of each other, or have the same elements
(elements repeated or not), and it is false on a record with an empty reference list. -/
theorem indexCriteria_membership :
    (∀ (keys : List String) (val : String),
        indexCriteriaContains keys val = true ↔ val ∈ keys) ∧
      ∀ val : String, ∃ filter,
        makeCriteriaFilterF (.IndexCriteria "wki" val) = .ok filter ∧
        (∀ s t : Statement, (StatementRefs s).Perm (StatementRefs t) → filter s = filter t) ∧
        (∀ s t : Statement, (∀ x, x ∈ StatementRefs s ↔ x ∈ StatementRefs t) →
          filter s = filter t) ∧
        ∀ s : Statement, StatementRefs s = [] → filter s = false := by
  refine ⟨indexCriteriaContains_iff, fun val => ⟨_, rfl, ?_, ?_, ?_⟩⟩
  · intro s t hp
    rw [Bool.eq_iff_iff]
    simp only [wkiCriteriaFilter, indexCriteriaContains_iff]
    exact hp.mem_iff
  · intro s t hx
    rw [Bool.eq_iff_iff]
    simp only [wkiCriteriaFilter, indexCriteriaContains_iff]
    exact hx val
  · intro s hs
    simp only [wkiCriteriaFilter, hs]
    rfl

/-- C15: when the namespace pattern is not empty and the criteria or the selector fails
to compile, `EvalQuery` returns one `QueryEvalError` (and no result sequence), the same
for every iteration order and every record sequence, hence the one returned for the
empty sequence: the records play no part. It is the error of the criteria when the
criteria fails, also when the selector fails too, and the error of the selector
otherwise. -/
theorem EvalQuery_compile_error (query : Query) (hns : query.namespace_ ≠ "")
    (hfail : (∃ e, makeCriteriaFilter query = .error e) ∨
      (∃ e, makeResultSet query = .error e)) :
    ∃ err, (∀ it stmts, EvalQuery it query stmts = .error err) ∧
      (∀ it stmts, EvalQuery it query stmts = EvalQuery it query []) ∧
      (∀ ce, makeCriteriaFilter query = .error ce → err = ce) ∧
      (∀ cfilter, makeCriteriaFilter query = .ok cfilter → makeResultSet query = .error err) := by
  obtain ⟨nsf, hnsf⟩ := makeNamespaceFilter_isSome query hns
  cases hc : makeCriteriaFilter query with
  | error ce =>
    have hev : ∀ it stmts, EvalQuery it query stmts = .error ce := by
      intro it stmts
      simp only [EvalQuery, hnsf, hc]
    refine ⟨ce, hev, fun it stmts => by rw [hev, hev], fun ce2 h2 => ?_, fun f h2 => ?_⟩
    · cases h2
      rfl
    · cases h2
  | ok cf =>
    rcases hfail with ⟨e, he⟩ | ⟨e, he⟩
    · rw [hc] at he
      cases he
    · have hev : ∀ it stmts, EvalQuery it query stmts = .error e := by
        intro it stmts
        simp only [EvalQuery, hnsf, hc, he]
      refine ⟨e, hev, fun it stmts => by rw [hev, hev], fun ce2 h2 => ?_, fun f _ => he⟩
      cases h2

/-- Both the criteria and the selector are malformed: the error is the one of the
criteria. -/
theorem EvalQuery_compile_error_witness :
    ∃ err,
      (∀ it stmts, EvalQuery it ⟨"a", .SimpleSelector "foo",
        some (.ValueCriteria "=" "body" "x"), 0⟩ stmts = .error err) ∧
      (∀ it stmts, EvalQuery it ⟨"a", .SimpleSelector "foo",
          some (.ValueCriteria "=" "body" "x"), 0⟩ stmts
        = EvalQuery it ⟨"a", .SimpleSelector "foo",
          some (.ValueCriteria "=" "body" "x"), 0⟩ []) ∧
      (∀ ce, makeCriteriaFilter ⟨"a", .SimpleSelector "foo",
        some (.ValueCriteria "=" "body" "x"), 0⟩ = .error ce → err = ce) ∧
      (∀ cfilter, makeCriteriaFilter ⟨"a", .SimpleSelector "foo",
          some (.ValueCriteria "=" "body" "x"), 0⟩ = .ok cfilter →
        makeResultSet ⟨"a", .SimpleSelector "foo",
          some (.ValueCriteria "=" "body" "x"), 0⟩ = .error err) :=
  EvalQuery_compile_error ⟨"a", .SimpleSelector "foo", some (.ValueCriteria "=" "body" "x"), 0⟩
    (by decide) (Or.inl ⟨"Unexpected criteria selector: body", rfl⟩)

/-- C18: for a legal function selector and a limit L > 0 the reduction is applied to the
output of the set built with the same limit: the first L distinct selected values of the
accepted records, in the order the map is iterated. COUNT returns `[min(L, d)]`, d the
number of distinct selected values; MIN and MAX over timestamp, when a record is
accepted, return the least and the greatest of the first L distinct timestamps only. -/
theorem EvalQuery_function_limit (it : MapRange) (query : Query) (stmts : List Statement)
    (nsfilter cfilter : StatementFilter)
    (hlim : 0 < query.limit)
    (hns : makeNamespaceFilter query = some nsfilter)
    (hc : makeCriteriaFilter query = .ok cfilter) :
    (∀ op name fun_ getf, query.selector = .FunctionSelector op name →
        checkFunctionSelector op name = true →
        functionSelectors.lookup op = some fun_ →
        simpleSelectors.lookup name = some getf →
        ∃ out,
          EvalQuery it ⟨query.namespace_, .SimpleSelector name, query.criteria, query.limit⟩ stmts
            = .ok out ∧
          (out.length : Int) ≤ query.limit ∧
          (∀ v, v ∈ out ↔ v ∈ ((firstOccurrences ((accepted nsfilter cfilter stmts).map
            getf)).take query.limit.toNat).map Value.scalar) ∧
          EvalQuery it query stmts
            = match fun_ out with
              | none => .panic
              | some res => .ok res) ∧
      (∀ name getf, query.selector = .FunctionSelector "COUNT" name →
        simpleSelectors.lookup name = some getf →
        EvalQuery it query stmts
          = .ok [Value.scalar (Scalar.int (min query.limit
              (((accepted nsfilter cfilter stmts).map getf).dedup.length : Int)))]) ∧
      (query.selector = .FunctionSelector "MIN" "timestamp" →
        accepted nsfilter cfilter stmts ≠ [] →
        ∃ m : Int, EvalQuery it query stmts = .ok [Value.scalar (Scalar.int64 m)] ∧
          Scalar.int64 m ∈ (firstOccurrences ((accepted nsfilter cfilter stmts).map
            simpleSelectorTimestamp)).take query.limit.toNat ∧
          ∀ t, Scalar.int64 t ∈ (firstOccurrences ((accepted nsfilter cfilter stmts).map
            simpleSelectorTimestamp)).take query.limit.toNat → m ≤ t) ∧
      (query.selector = .FunctionSelector "MAX" "timestamp" →
        accepted nsfilter cfilter stmts ≠ [] →
        ∃ m : Int, EvalQuery it query stmts = .ok [Value.scalar (Scalar.int64 m)] ∧
          Scalar.int64 m ∈ (firstOccurrences ((accepted nsfilter cfilter stmts).map
            simpleSelectorTimestamp)).take query.limit.toNat ∧
          ∀ t, Scalar.int64 t ∈ (firstOccurrences ((accepted nsfilter cfilter stmts).map
            simpleSelectorTimestamp)).take query.limit.toNat → t ≤ m) := by
  have hnat := Int.toNat_of_nonneg (le_of_lt hlim)
  have hkeys : ∀ getf, (List.foldl SimpleResultSet.add (makeSimpleResultSet getf query.limit)
      (accepted nsfilter cfilter stmts)).rset
      = (firstOccurrences ((accepted nsfilter cfilter stmts).map getf)).take
          query.limit.toNat := by
    intro getf
    rw [foldl_add_make _ _ _ (le_of_lt hlim), storedKeys_pos _ hlim]
  have hts : ∀ x ∈ (firstOccurrences ((accepted nsfilter cfilter stmts).map
      simpleSelectorTimestamp)).take query.limit.toNat, ∃ t, x = Scalar.int64 t := by
    intro x hx
    have h1 := (mem_firstOccurrences _ x).mp (List.mem_of_mem_take hx)
    obtain ⟨s, _, hs⟩ := List.mem_map.mp h1
    exact ⟨s.Timestamp, hs.symm⟩
  have htsne : accepted nsfilter cfilter stmts ≠ [] →
      (firstOccurrences ((accepted nsfilter cfilter stmts).map
        simpleSelectorTimestamp)).take query.limit.toNat ≠ [] := by
    intro hne
    cases hacc : accepted nsfilter cfilter stmts with
    | nil => exact absurd hacc hne
    | cons a rest =>
      obtain ⟨n, hn⟩ : ∃ n, query.limit.toNat = n + 1 := ⟨query.limit.toNat - 1, by omega⟩
      simp [firstOccurrences, hn]
  refine ⟨?_, ?_, ?_, ?_⟩
  · intro op name fun_ getf hsel hcheck hfun hget
    refine ⟨_, EvalQuery_simple_eq it
      ⟨query.namespace_, .SimpleSelector name, query.criteria, query.limit⟩ name getf stmts
      nsfilter cfilter rfl hget (le_of_lt hlim) hns hc, ?_, ?_, ?_⟩
    · rw [List.length_map, (it.perm _).length_eq, length_storedKeys_pos _ hlim]
      omega
    · intro v
      simp only [List.mem_map, (it.perm _).mem_iff, storedKeys_pos _ hlim]
    · rw [EvalQuery_function_eq it query op name fun_ getf stmts nsfilter cfilter hsel hcheck
        hfun hget hns hc, foldl_add_make _ _ _ (le_of_lt hlim)]
  · intro name getf hsel hget
    have hcheck : checkFunctionSelector "COUNT" name = true :=
      checkFunctionSelector_COUNT name (by simp [hget])
    rw [EvalQuery_function_eq it query "COUNT" name countFunctionSelector getf stmts nsfilter
      cfilter hsel hcheck rfl hget hns hc, foldl_add_make _ _ _ (le_of_lt hlim)]
    simp only [countFunctionSelector, List.length_map, (it.perm _).length_eq,
      length_storedKeys_pos _ hlim]
    have h2 : ((min query.limit.toNat
        (List.map getf (accepted nsfilter cfilter stmts)).dedup.length : Nat) : Int)
        = min query.limit
          ((List.map getf (accepted nsfilter cfilter stmts)).dedup.length : Int) := by
      omega
    rw [h2]
  · intro hsel hne
    obtain ⟨⟨m, hm, hin, hle⟩, _⟩ := minmax_on_keys it _ hts (htsne hne)
    refine ⟨m, ?_, hin, hle⟩
    rw [EvalQuery_function_eq it query "MIN" "timestamp" minFunctionSelector
      simpleSelectorTimestamp stmts nsfilter cfilter hsel rfl rfl rfl hns hc, hkeys, hm]
  · intro hsel hne
    obtain ⟨_, ⟨m, hm, hin, hle⟩⟩ := minmax_on_keys it _ hts (htsne hne)
    refine ⟨m, ?_, hin, hle⟩
    rw [EvalQuery_function_eq it query "MAX" "timestamp" maxFunctionSelector
      simpleSelectorTimestamp stmts nsfilter cfilter hsel rfl rfl rfl hns hc, hkeys, hm]

/-- C20: for a simple selector whose name resolves and a limit L > 0, the values that
`EvalQuery` returns are exactly the first L distinct selected values of the accepted
records in input order (all d of them when d is at most L), without repetition; a
distinct value that comes after the first L never appears in the result. -/
theorem EvalQuery_simple_first_distinct (it : MapRange) (query : Query)
    (name : SimpleSelector) (getf : StatementSelector) (stmts : List Statement)
    (nsfilter cfilter : StatementFilter)
    (hsel : query.selector = .SimpleSelector name)
    (hget : simpleSelectors.lookup name = some getf)
    (hlim : 0 < query.limit)
    (hns : makeNamespaceFilter query = some nsfilter)
    (hc : makeCriteriaFilter query = .ok cfilter) :
    ∃ out, EvalQuery it query stmts = .ok out ∧ out.Nodup ∧
      (∀ x, Value.scalar x ∈ out ↔
        x ∈ (firstOccurrences ((accepted nsfilter cfilter stmts).map getf)).take
          query.limit.toNat) ∧
      (∀ v ∈ out, ∃ x, v = Value.scalar x) ∧
      ((firstOccurrences ((accepted nsfilter cfilter stmts).map getf)).take
          query.limit.toNat).length
        = min query.limit.toNat ((accepted nsfilter cfilter stmts).map getf).dedup.length ∧
      ∀ x ∈ (firstOccurrences ((accepted nsfilter cfilter stmts).map getf)).drop
          query.limit.toNat, Value.scalar x ∉ out := by
  have hmem : ∀ x, Value.scalar x ∈ (it.order (storedKeys query.limit getf
      (accepted nsfilter cfilter stmts))).map Value.scalar ↔
      x ∈ (firstOccurrences ((accepted nsfilter cfilter stmts).map getf)).take
        query.limit.toNat := by
    intro x
    rw [List.mem_map_of_injective scalar_injective, (it.perm _).mem_iff,
      storedKeys_pos _ hlim]
  refine ⟨_, EvalQuery_simple_eq it query name getf stmts nsfilter cfilter hsel hget
    (le_of_lt hlim) hns hc, ?_, hmem, ?_, ?_, ?_⟩
  · exact List.Nodup.map scalar_injective
      ((it.perm _).nodup_iff.mpr (storedKeys_nodup _ _ _))
  · intro v hv
    obtain ⟨x, _, hx⟩ := List.mem_map.mp hv
    exact ⟨x, hx.symm⟩
  · rw [List.length_take, length_firstOccurrences]
  · intro x hx hin
    have h1 := (hmem x).mp hin
    have hnd := firstOccurrences_nodup ((accepted nsfilter cfilter stmts).map getf)
    rw [← List.take_append_drop query.limit.toNat
      (firstOccurrences ((accepted nsfilter cfilter stmts).map getf))] at hnd
    exact (List.nodup_append.mp hnd).2.2 h1 hx

theorem EvalQuery_simple_first_distinct_witness :
    ∃ out, EvalQuery .reversed ⟨"*", .SimpleSelector "id", none, 2⟩ exampleStmts = .ok out ∧
      out.Nodup ∧
      (∀ x, Value.scalar x ∈ out ↔
        x ∈ (firstOccurrences ((accepted emptyFilter emptyFilter exampleStmts).map
          simpleSelectorId)).take (2 : Int).toNat) ∧
      (∀ v ∈ out, ∃ x, v = Value.scalar x) ∧
      ((firstOccurrences ((accepted emptyFilter emptyFilter exampleStmts).map
          simpleSelectorId)).take (2 : Int).toNat).length
        = min (2 : Int).toNat
          ((accepted emptyFilter emptyFilter exampleStmts).map simpleSelectorId).dedup.length ∧
      ∀ x ∈ (firstOccurrences ((accepted emptyFilter emptyFilter exampleStmts).map
          simpleSelectorId)).drop (2 : Int).toNat, Value.scalar x ∉ out :=
  EvalQuery_simple_first_distinct .reversed ⟨"*", .SimpleSelector "id", none, 2⟩ "id"
    simpleSelectorId exampleStmts emptyFilter emptyFilter rfl rfl (by decide) rfl rfl

/-- A limit of 1 with timestamps 100, 50, 70 in scan order: MIN is taken over the first
distinct timestamp only. -/
theorem EvalQuery_function_limit_witness :
    ∃ m : Int,
      EvalQuery .insertion ⟨"*", .FunctionSelector "MIN" "timestamp", none, 1⟩ exampleStmts
        = .ok [Value.scalar (Scalar.int64 m)] ∧
      Scalar.int64 m ∈ (firstOccurrences ((accepted emptyFilter emptyFilter exampleStmts).map
        simpleSelectorTimestamp)).take (1 : Int).toNat ∧
      ∀ t, Scalar.int64 t ∈ (firstOccurrences ((accepted emptyFilter emptyFilter
        exampleStmts).map simpleSelectorTimestamp)).take (1 : Int).toNat → m ≤ t :=
  (EvalQuery_function_limit .insertion ⟨"*", .FunctionSelector "MIN" "timestamp", none, 1⟩
    exampleStmts emptyFilter emptyFilter (by decide) rfl rfl).2.2.1 rfl (by decide)

/-- C17: for every id without `'/'` and every address whose last component (between
`'/'`) is not `p2p`, `ParseHandle` gives the canonical handle `addr/p2p/id` and the older
form `addr/id` the same outcome, the peer info of the address part `addr` and the id part
`id`; the handle `/p2p/id` has an empty address part and gives the peer info of the id
alone; a handle without `'/'` is parsed as `ParseHandleId` parses it. -/
theorem ParseHandle_forms {E I A : Type} (IDB58Decode : List UInt8 → Except E I)
    (NewMultiaddr : List UInt8 → Except E A) (addr id : List UInt8)
    (hid : (47 : UInt8) ∉ id)
    (haddr : lastComponent addr ≠ goBytes "p2p") :
    ParseHandle IDB58Decode NewMultiaddr (addr ++ goBytes "/p2p/" ++ id)
        = peerInfoOf IDB58Decode NewMultiaddr addr id ∧
      ParseHandle IDB58Decode NewMultiaddr (addr ++ goBytes "/" ++ id)
        = peerInfoOf IDB58Decode NewMultiaddr addr id ∧
      ParseHandle IDB58Decode NewMultiaddr (goBytes "/p2p/" ++ id)
        = peerInfoOf IDB58Decode NewMultiaddr [] id ∧
      peerInfoOf IDB58Decode NewMultiaddr [] id = ParseHandleId IDB58Decode id ∧
      ParseHandle IDB58Decode NewMultiaddr id = ParseHandleId IDB58Decode id := by
  have hp2p : goBytes "/p2p/" = 47 :: (goBytes "p2p" ++ [47]) := by decide
  have hsl : goBytes "/" = [47] := by decide
  have hno : (47 : UInt8) ∉ goBytes "p2p" := by decide
  have hcanon : ∀ a : List UInt8,
      ParseHandle IDB58Decode NewMultiaddr (a ++ goBytes "/p2p/" ++ id)
        = peerInfoOf IDB58Decode NewMultiaddr a id := by
    intro a
    have e : a ++ goBytes "/p2p/" ++ id = (a ++ 47 :: goBytes "p2p") ++ 47 :: id := by
      rw [hp2p]
      simp
    rw [e]
    apply ParseHandle_split IDB58Decode NewMultiaddr _ id a hid
    rw [lastIndexSlash_append a (goBytes "p2p") hno]
    have hd : (a ++ 47 :: goBytes "p2p").drop (a.length + 1) = goBytes "p2p" := by
      rw [← List.drop_drop]
      simp
    simp [hd]
  refine ⟨hcanon addr, ?_, ?_, ?_, ?_⟩
  · have e : addr ++ goBytes "/" ++ id = addr ++ 47 :: id := by
      rw [hsl]
      simp
    rw [e]
    apply ParseHandle_split IDB58Decode NewMultiaddr addr id addr hid
    cases hla : lastIndexSlash addr with
    | none => rfl
    | some iy =>
      obtain ⟨a1, b1, hab, hb1, hi⟩ := lastIndexSlash_eq_some addr iy hla
      have hd : addr.drop (iy + 1) = b1 := by
        rw [hab, hi, ← List.drop_drop]
        simp
      have hlc : lastComponent addr = b1 := by
        rw [hab]
        exact lastComponent_append a1 b1 hb1
      have hne : ¬ addr.drop (iy + 1) = goBytes "p2p" := by
        rw [hd, ← hlc]
        exact haddr
      simp only [hne, if_false]
  · have h := hcanon []
    simpa using h
  · cases hdec : IDB58Decode id with
    | error err => simp [peerInfoOf, ParseHandleId, hdec]
    | ok pid => simp [peerInfoOf, ParseHandleId, hdec]
  · simp only [ParseHandle, (lastIndexSlash_eq_none id).mpr hid]

/-- The decoders of the witness return the bytes they are given, so the outcome shows
the two parts of the split. -/
theorem ParseHandle_forms_witness :
    ParseHandle (fun b => Except.ok b) (fun b => Except.ok b)
          (goBytes "/ip4/1.2.3.4/tcp/9001" ++ goBytes "/p2p/" ++ goBytes "QmPeer")
        = peerInfoOf (fun b => (Except.ok b : Except String (List UInt8)))
            (fun b => Except.ok b) (goBytes "/ip4/1.2.3.4/tcp/9001") (goBytes "QmPeer") ∧
      ParseHandle (fun b => Except.ok b) (fun b => Except.ok b)
          (goBytes "/ip4/1.2.3.4/tcp/9001" ++ goBytes "/" ++ goBytes "QmPeer")
        = peerInfoOf (fun b => (Except.ok b : Except String (List UInt8)))
            (fun b => Except.ok b) (goBytes "/ip4/1.2.3.4/tcp/9001") (goBytes "QmPeer") ∧
      ParseHandle (fun b => Except.ok b) (fun b => Except.ok b)
          (goBytes "/p2p/" ++ goBytes "QmPeer")
        = peerInfoOf (fun b => (Except.ok b : Except String (List UInt8)))
            (fun b => Except.ok b) [] (goBytes "QmPeer") ∧
      peerInfoOf (fun b => (Except.ok b : Except String (List UInt8)))
          (fun b => (Except.ok b : Except String (List UInt8))) [] (goBytes "QmPeer")
        = ParseHandleId (fun b => Except.ok b) (goBytes "QmPeer") ∧
      ParseHandle (fun b => (Except.ok b : Except String (List UInt8)))
          (fun b => (Except.ok b : Except String (List UInt8))) (goBytes "QmPeer")
        = ParseHandleId (fun b => Except.ok b) (goBytes "QmPeer") :=
  ParseHandle_forms (fun b => Except.ok b) (fun b => Except.ok b)
    (goBytes "/ip4/1.2.3.4/tcp/9001") (goBytes "QmPeer") (by decide) (by decide)

/-- C21: `makeNamespaceFilter` fails on an index or a slice out of range exactly when the
namespace pattern is empty. For a pattern other than `*` whose last byte is `'*'` the
pattern has at least two bytes, so the slice `ns[:len(ns)-2]` of the wildcard branch is
in bounds; the empty pattern has no last byte, and the index `ns[len(ns)-1]` fails. -/
theorem makeNamespaceFilter_panics_iff (query : Query) :
    (makeNamespaceFilter query = none ↔ query.namespace_ = "") ∧
      (query.namespace_ ≠ "*" → (goBytes query.namespace_).getLast? = some 42 →
        2 ≤ (goBytes query.namespace_).length) ∧
      (query.namespace_ = "" → (goBytes query.namespace_).getLast? = none) := by
  refine ⟨⟨fun h => ?_, fun h => ?_⟩, fun hstar hlast => ?_, fun h => ?_⟩
  · by_contra hne
    obtain ⟨f, hf⟩ := makeNamespaceFilter_isSome query hne
    rw [hf] at h
    cases h
  · have h1 : ¬ query.namespace_ = "*" := by
      rw [h]
      decide
    have h2 : (goBytes query.namespace_).getLast? = none := by
      rw [h]
      decide
    simp only [makeNamespaceFilter, h1, if_false, h2]
  · exact two_le_length_goBytes _ hstar ((getLast_goBytes _).mp hlast)
  · rw [h]
    decide

/-- C22: whenever `checkFunctionSelector` accepts a function selector, the function is a
key of `functionSelectors` and the selector name is a key of `simpleSelectors`. So for a
function selector `makeResultSet` either returns the function result set, or, when
`checkFunctionSelector` rejects, the error `Illegal selector`; it never returns an
`Unexpected selector` error. In the tables, every key of `functionAllowedSelectors` is a
key of `functionSelectors` and every allowed name is a key of `simpleSelectors`. -/
theorem function_lookups_succeed :
    (∀ (op : String) (name : SimpleSelector), checkFunctionSelector op name = true →
        (∃ fun_, functionSelectors.lookup op = some fun_) ∧
          ∃ getf, simpleSelectors.lookup name = some getf) ∧
      (∀ (ns : String) (criteria : Option QueryCriteria) (limit : Int) (op : String)
          (name : SimpleSelector),
        (checkFunctionSelector op name = true ∧ ∃ fun_ getf,
            functionSelectors.lookup op = some fun_ ∧
            simpleSelectors.lookup name = some getf ∧
            makeResultSet ⟨ns, .FunctionSelector op name, criteria, limit⟩
              = .ok (.function (makeFunctionResultSet fun_ getf limit))) ∨
          (checkFunctionSelector op name = false ∧
            makeResultSet ⟨ns, .FunctionSelector op name, criteria, limit⟩
              = .error ("Illegal selector: " ++ op ++ "(" ++ name ++ ")"))) ∧
      (∀ (op : String) (name : SimpleSelector) (x : String),
        "Illegal selector: " ++ op ++ "(" ++ name ++ ")" ≠ "Unexpected selector: " ++ x) ∧
      ∀ entry ∈ functionAllowedSelectors,
        (functionSelectors.lookup entry.1).isSome = true ∧
          ∀ allowed ∈ entry.2, (simpleSelectors.lookup allowed.1).isSome = true := by
  refine ⟨lookups_of_checkFunctionSelector, ?_, ?_, by decide⟩
  · intro ns criteria limit op name
    cases hcheck : checkFunctionSelector op name with
    | true =>
      left
      obtain ⟨⟨fun_, hfun⟩, ⟨getf, hget⟩⟩ := lookups_of_checkFunctionSelector op name hcheck
      exact ⟨rfl, fun_, getf, hfun, hget, by simp [makeResultSet, hcheck, hfun, hget]⟩
    | false =>
      right
      exact ⟨rfl, by simp [makeResultSet, hcheck]⟩
  · intro op name x h
    have hd := congrArg String.data h
    simp only [String.data_append] at hd
    simp only [List.cons_append, List.cons.injEq] at hd
    exact absurd hd.1 (by decide)

end Concat
